import Mathlib

/-!
Verification development for the hypha repository.

The repository ships two variants of the per-topic mesh manager:
`src/hypha-core/src/mesh.rs` (namespace `Core` below, embedded over `ℚ`:
all float arithmetic in that file is clamp/min/max/affine arithmetic on
finite values, exact over the rationals) and `src/src/mesh.rs`
(namespace `SrcMesh` below, embedded over `F := Option ℚ`, where `none`
models an `f32` NaN; operations that can panic — `partial_cmp(..).unwrap()`
inside `sort_by` / `min_by` / `max_by` — return `Option`, with `none` for
a panic).  `Instant::now()` is modeled by an explicit `now : Nat`
parameter (monotone timestamps), `Duration` by whole seconds, and the
thread RNG used for lazy-push target selection by an explicit `pick`
function parameter (it influences only the emitted IHAVE control
messages, never the mesh state).

Also embedded: `Task::diffuse` and the data model from
`src/hypha-core/src/agent.rs`, `BatteryMetabolism` from
`src/hypha-core/src/metabolism.rs`, and `SporeNode::evaluate_task` from
`src/src/lib.rs`.
-/

namespace Hypha

/-- Peer and message identifiers are opaque strings, as in the source. -/
abbrev PeerId := String

/-- Mesh configuration (`MeshConfig` in both mesh.rs variants).  The
heartbeat interval and backoff durations are whole seconds; the score
thresholds are exact rationals (the defaults 0.3, 0.1, 0.05 are exactly
representable). -/
structure MeshConfig where
  d : Nat
  d_low : Nat
  d_high : Nat
  d_lazy : Nat
  heartbeat_interval : Nat
  opportunistic_graft_threshold : ℚ
  graft_threshold : ℚ
  prune_threshold : ℚ
deriving DecidableEq, Repr

/-- Default mesh configuration (`impl Default for MeshConfig`). -/
def MeshConfig.default : MeshConfig :=
  { d := 6
    d_low := 4
    d_high := 12
    d_lazy := 6
    heartbeat_interval := 1
    opportunistic_graft_threshold := 3/10
    graft_threshold := 1/10
    prune_threshold := 1/20 }

/-- Adaptive configuration based on energy score (`MeshConfig::adaptive`). -/
def MeshConfig.adaptive (energy_score : ℚ) : MeshConfig :=
  if energy_score < 1/5 then
    { MeshConfig.default with d := 2, d_low := 1, d_high := 4, d_lazy := 2 }
  else if energy_score < 1/2 then
    { MeshConfig.default with d := 4, d_low := 2, d_high := 8, d_lazy := 4 }
  else MeshConfig.default

/-- Control messages for mesh management (`enum MeshControl`); the prune
backoff is in whole seconds. -/
inductive MeshControl where
  | graft (topic : String)
  | prune (topic : String) (backoff : Nat)
  | ihave (topic : String) (message_ids : List String)
  | iwant (message_ids : List String)
deriving DecidableEq, Repr

/-- Insert into a set of peer ids (`HashSet::insert`): no duplicates. -/
def insertStr (id : PeerId) (l : List PeerId) : List PeerId :=
  if id ∈ l then l else id :: l

/-- Remove from a set of peer ids (`HashSet::remove`). -/
def removeStr (id : PeerId) (l : List PeerId) : List PeerId :=
  l.filter (fun x => x ≠ id)

/-- Keys of an association list (used to model `HashMap` key sets). -/
def keysOf {β : Type} (l : List (PeerId × β)) : List PeerId :=
  l.map Prod.fst

/-- Association-list lookup (model of `HashMap::get`). -/
def lookupA {β : Type} : List (PeerId × β) → PeerId → Option β
  | [], _ => none
  | (k, v) :: t, a => if a = k then some v else lookupA t a

/-- Model of `HashMap::get_mut` followed by a field update: rewrite the
value stored at `id`, leaving all other entries unchanged. -/
def updateAt {β : Type} (id : PeerId) (f : β → β) (l : List (PeerId × β)) :
    List (PeerId × β) :=
  l.map (fun kp => if kp.1 = id then (kp.1, f kp.2) else kp)

/-- Model of `HashMap::insert` (replacing any previous binding). -/
def insertPair {β : Type} (id : PeerId) (v : β) (l : List (PeerId × β)) :
    List (PeerId × β) :=
  (id, v) :: l.filter (fun kp => kp.1 ≠ id)

/-- Rust `Iterator::min_by` on `(key, score)` pairs over a total order:
returns the first minimal element. -/
def minBySnd : List (PeerId × ℚ) → Option (PeerId × ℚ)
  | [] => none
  | x :: xs => some (xs.foldl (fun a y => if y.2 < a.2 then y else a) x)

/-- Rust `Iterator::max_by` on `(key, score)` pairs over a total order:
returns the last maximal element. -/
def maxBySnd : List (PeerId × ℚ) → Option (PeerId × ℚ)
  | [] => none
  | x :: xs => some (xs.foldl (fun a y => if a.2 ≤ y.2 then y else a) x)

/-- Stable insertion into an ascending sorted list of rationals (models
`Vec::sort_by` with a total comparison, whose sorted output on a total
order is unique as a value list). -/
def insSorted (x : ℚ) : List ℚ → List ℚ
  | [] => [x]
  | y :: ys => if x ≤ y then x :: y :: ys else y :: insSorted x ys

/-- Ascending sort of rationals. -/
def sortQ : List ℚ → List ℚ
  | [] => []
  | x :: xs => insSorted x (sortQ xs)

/-- Stable descending insertion by score for `(id, score)` pairs. -/
def insSortedDesc (x : PeerId × ℚ) : List (PeerId × ℚ) → List (PeerId × ℚ)
  | [] => [x]
  | y :: ys => if y.2 < x.2 then x :: y :: ys else y :: insSortedDesc x ys

/-- Descending sort by score (models `sort_by(|a, b| b.1.total_cmp(&a.1))`). -/
def sortDescQ : List (PeerId × ℚ) → List (PeerId × ℚ)
  | [] => []
  | x :: xs => insSortedDesc x (sortDescQ xs)

/-- Rust `f32` truncation toward zero, on exact rationals. -/
def ratTrunc (x : ℚ) : ℤ :=
  if 0 ≤ x then ⌊x⌋ else ⌈x⌉

/-- Rust `x % 1.0`: remainder with the sign of the dividend. -/
def rustMod1 (x : ℚ) : ℚ :=
  x - ratTrunc x

/-- Wrap-aware (shortest-arc) distance between two phases on the unit
circle, used to state the pulse-alignment claim. -/
def circDist (x y : ℚ) : ℚ :=
  min (Int.fract (x - y)) (1 - Int.fract (x - y))

end Hypha

namespace Core

open Hypha

/-- Peer record (`struct MeshPeer` in `src/hypha-core/src/mesh.rs`). -/
structure MeshPeer where
  id : String
  energy_score : ℚ
  conductivity : ℚ
  pressure : ℚ
  message_count : Nat
  last_seen : Nat
  in_mesh : Bool
deriving DecidableEq, Repr

/-- Fresh peer record (`MeshPeer::new`). -/
def MeshPeer.new (id : String) (energy_score : ℚ) (now : Nat) : MeshPeer :=
  { id := id
    energy_score := energy_score
    conductivity := 1
    pressure := 0
    message_count := 0
    last_seen := now
    in_mesh := false }

/-- Weighted peer score (`MeshPeer::score`): 30% energy, 20% activity,
30% normalized conductivity, 20% pressure headroom. -/
def MeshPeer.score (p : MeshPeer) : ℚ :=
  let activity_score := min ((p.message_count : ℚ) / 100) 1
  let normalized_conductivity := (min p.conductivity 5) / 5
  let pressure_score := 1 - (min p.pressure 10) / 10
  p.energy_score * (3/10) + activity_score * (2/10)
    + normalized_conductivity * (3/10) + pressure_score * (2/10)

/-- Mesh state for one topic (`struct TopicMesh` in
`src/hypha-core/src/mesh.rs`).  `mesh_peers` models a `HashSet`,
`known_peers` and `backoff` model `HashMap`s as association lists, and
`backoff` stores absolute expiry instants. -/
structure TopicMesh where
  topic : String
  config : MeshConfig
  local_pressure : ℚ
  pulse_phase : ℚ
  mesh_peers : List PeerId
  known_peers : List (PeerId × MeshPeer)
  message_cache : List String
  duplicate_count : Nat
  backoff : List (PeerId × Nat)
deriving DecidableEq, Repr

/-- Fresh mesh (`TopicMesh::new`); the initial pulse phase is
`rand::random` in the source and is taken as a parameter here. -/
def TopicMesh.new (topic : String) (config : MeshConfig) (phase : ℚ) :
    TopicMesh :=
  { topic := topic
    config := config
    local_pressure := 0
    pulse_phase := phase
    mesh_peers := []
    known_peers := []
    message_cache := []
    duplicate_count := 0
    backoff := [] }

/-- Update local pressure (`TopicMesh::set_pressure`). -/
def set_pressure (m : TopicMesh) (pressure : ℚ) : TopicMesh :=
  { m with local_pressure := pressure }

/-- Advance the pulse phase (`TopicMesh::tick_pulse`). -/
def tick_pulse (m : TopicMesh) (delta : ℚ) : TopicMesh :=
  { m with pulse_phase := rustMod1 (m.pulse_phase + delta) }

/-- Align pulse with a neighbor (`TopicMesh::align_pulse`): wrap-aware
signed difference, weighted step, then normalization to `[0, 1)`. -/
def align_pulse (m : TopicMesh) (neighbor_phase weight : ℚ) : TopicMesh :=
  let diff0 := neighbor_phase - m.pulse_phase
  let diff :=
    if 1/2 < diff0 then diff0 - 1
    else if diff0 < -(1/2) then diff0 + 1
    else diff0
  let ph := rustMod1 (m.pulse_phase + diff * weight)
  { m with pulse_phase := if ph < 0 then ph + 1 else ph }

/-- Update a known peer's advertised pressure
(`TopicMesh::update_peer_pressure`); no-op on unknown peers. -/
def update_peer_pressure (m : TopicMesh) (id : PeerId) (pressure : ℚ) :
    TopicMesh :=
  { m with known_peers := updateAt id (fun p => { p with pressure := pressure }) m.known_peers }

/-- Idempotent peer insert with defaults (`TopicMesh::add_peer`). -/
def add_peer (m : TopicMesh) (id : PeerId) (energy_score : ℚ) (now : Nat) :
    TopicMesh :=
  if (lookupA m.known_peers id).isSome then m
  else { m with known_peers := m.known_peers ++ [(id, MeshPeer.new id energy_score now)] }

/-- Upsert of a peer's energy score (`TopicMesh::update_peer_score` in
`src/hypha-core/src/mesh.rs`): inserts a fresh record when the peer is
unknown, then stores the score and refreshes `last_seen`. -/
def update_peer_score (m : TopicMesh) (id : PeerId) (energy_score : ℚ)
    (now : Nat) : TopicMesh :=
  if (lookupA m.known_peers id).isSome then
    { m with known_peers :=
        updateAt id (fun p => { p with energy_score := energy_score, last_seen := now }) m.known_peers }
  else
    { m with known_peers :=
        m.known_peers ++ [(id, { MeshPeer.new id energy_score now with
          energy_score := energy_score, last_seen := now })] }

/-- Record a message from a peer (`TopicMesh::record_message` in
`src/hypha-core/src/mesh.rs`): bump `message_count` and `last_seen`,
thicken conductivity by the pressure gradient saturating at 10, and
deduplicate against `message_cache`. -/
def record_message (m : TopicMesh) (peer_id : PeerId) (msg_id : String)
    (now : Nat) : TopicMesh :=
  let m1 :=
    { m with known_peers :=
        updateAt peer_id (fun p =>
          let pressure_grad := max |m.local_pressure - p.pressure| (1/10)
          { p with
            message_count := p.message_count + 1
            last_seen := now
            conductivity := min (p.conductivity + (1/10) * pressure_grad) 10 }) m.known_peers }
  if msg_id ∈ m1.message_cache then
    { m1 with duplicate_count := m1.duplicate_count + 1 }
  else
    { m1 with message_cache := m1.message_cache ++ [msg_id] }

/-- Scores of the current mesh members, in membership order. -/
def meshScores (m : TopicMesh) : List (PeerId × ℚ) :=
  m.mesh_peers.filterMap (fun id =>
    (lookupA m.known_peers id).map (fun p => (id, p.score)))

/-- Median mesh score (`TopicMesh::mesh_median_score`): 0 when the mesh
is empty, the average of the two middle scores for even sizes. -/
def mesh_median_score (m : TopicMesh) : ℚ :=
  let scores := (meshScores m).map Prod.snd
  if scores = [] then 0
  else
    let sorted := sortQ scores
    let mid := sorted.length / 2
    if sorted.length % 2 = 0 then
      (sorted.getD (mid - 1) 0 + sorted.getD mid 0) / 2
    else sorted.getD mid 0

/-- Heartbeat step 1 (path thinning): every known peer's conductivity
decays by the factor 0.95 with floor 0.5. -/
def decay (m : TopicMesh) : TopicMesh :=
  { m with known_peers := m.known_peers.map (fun kp =>
      (kp.1, { kp.2 with conductivity := max (kp.2.conductivity * (95/100)) (1/2) })) }

/-- Heartbeat step 2 (backoff sweep): `backoff.retain(|_, expiry| *expiry > now)`. -/
def sweep (now : Nat) (m : TopicMesh) : TopicMesh :=
  { m with backoff := m.backoff.filter (fun kp => now < kp.2) }

/-- Prune condition of heartbeat step 3: score below the prune
threshold, or no record at all (`unwrap_or(true)`). -/
def pruneCond (m : TopicMesh) (id : PeerId) : Bool :=
  match lookupA m.known_peers id with
  | some p => decide (p.score < m.config.prune_threshold)
  | none => true

/-- Heartbeat step 3 (score-based prune), net effect of the
collect-then-remove loop in `src/hypha-core/src/mesh.rs`: each member of
`to_prune` leaves the mesh, has `in_mesh` cleared, gets a 60 s `Prune`
control, and is recorded in `backoff` at `now + 60`. -/
def scorePrune (now : Nat) (m : TopicMesh) :
    TopicMesh × List (PeerId × MeshControl) :=
  let to_prune := m.mesh_peers.filter (fun id => pruneCond m id)
  ({ m with
      mesh_peers := m.mesh_peers.filter (fun id => ! pruneCond m id)
      known_peers := m.known_peers.map (fun kp =>
        if to_prune.contains kp.1 then (kp.1, { kp.2 with in_mesh := false }) else kp)
      backoff := to_prune.foldl (fun b id => insertPair id (now + 60) b) m.backoff },
   to_prune.map (fun id => (id, MeshControl.prune m.topic 60)))

/-- Heartbeat step 4 (overflow prune): while the mesh exceeds `d_high`,
remove the lowest-scoring member, clear `in_mesh`, emit `Prune` and
record backoff.  The loop removes one member per iteration, so fuel
equal to the initial mesh size is never exhausted early. -/
def overflowPrune (now : Nat) :
    Nat → TopicMesh → List (PeerId × MeshControl) →
    TopicMesh × List (PeerId × MeshControl)
  | 0, m, acc => (m, acc)
  | fuel + 1, m, acc =>
    if m.mesh_peers.length ≤ m.config.d_high then (m, acc)
    else
      match minBySnd (meshScores m) with
      | none => (m, acc)
      | some (id, _) =>
        overflowPrune now fuel
          { m with
              mesh_peers := removeStr id m.mesh_peers
              known_peers := updateAt id (fun p => { p with in_mesh := false }) m.known_peers
              backoff := insertPair id (now + 60) m.backoff }
          (acc ++ [(id, MeshControl.prune m.topic 60)])

/-- Candidate for underflow grafting: best-scoring known peer outside
the mesh and outside backoff with score at least `graft_threshold`. -/
def graftCandidate (m : TopicMesh) : Option (PeerId × ℚ) :=
  maxBySnd ((m.known_peers.filter (fun kp =>
      ! m.mesh_peers.contains kp.1
        && (lookupA m.backoff kp.1).isNone
        && decide (m.config.graft_threshold ≤ kp.2.score))).map
    (fun kp => (kp.1, kp.2.score)))

/-- Heartbeat step 5 (underflow graft): while the mesh is below `d_low`
and a candidate exists, graft it (insert, set `in_mesh`, emit `Graft`).
Each iteration adds a peer from `known_peers` not yet in the mesh, so
fuel equal to the number of known peers is never exhausted early. -/
def graftLoop :
    Nat → TopicMesh → List (PeerId × MeshControl) →
    TopicMesh × List (PeerId × MeshControl)
  | 0, m, acc => (m, acc)
  | fuel + 1, m, acc =>
    if m.config.d_low ≤ m.mesh_peers.length then (m, acc)
    else
      match graftCandidate m with
      | none => (m, acc)
      | some (id, _) =>
        graftLoop fuel
          { m with
              mesh_peers := insertStr id m.mesh_peers
              known_peers := updateAt id (fun p => { p with in_mesh := true }) m.known_peers }
          (acc ++ [(id, MeshControl.graft m.topic)])

/-- Single opportunistic graft of one candidate, guarded by the `d_high`
bound re-checked before each graft (the loop body of heartbeat step 6). -/
def oppStep (topic : String) (st : TopicMesh × List (PeerId × MeshControl))
    (id : PeerId) : TopicMesh × List (PeerId × MeshControl) :=
  if st.1.config.d_high ≤ st.1.mesh_peers.length then st
  else
    ({ st.1 with
        mesh_peers := insertStr id st.1.mesh_peers
        known_peers := updateAt id (fun p => { p with in_mesh := true }) st.1.known_peers },
     st.2 ++ [(id, MeshControl.graft topic)])

/-- Heartbeat step 6 (opportunistic grafting) of
`src/hypha-core/src/mesh.rs`: when the median mesh score is below the
opportunistic threshold and the mesh is below `d_high`, graft up to two
of the best-scoring outside candidates above the median. -/
def oppGraft (m : TopicMesh) : TopicMesh × List (PeerId × MeshControl) :=
  let median := mesh_median_score m
  if median < m.config.opportunistic_graft_threshold
      ∧ m.mesh_peers.length < m.config.d_high then
    let candidates :=
      ((sortDescQ ((m.known_peers.filter (fun kp =>
          ! m.mesh_peers.contains kp.1
            && (lookupA m.backoff kp.1).isNone
            && decide (median < kp.2.score))).map
        (fun kp => (kp.1, kp.2.score)))).take 2).map Prod.fst
    candidates.foldl (oppStep m.topic) (m, [])
  else (m, [])

/-- Heartbeat step 7 (weak-link replacement): when the mesh is at least
`d_low`, replace its weakest member by a non-mesh, non-backoff peer
scoring more than 0.1 above it, with a 30 s backoff for the pruned one. -/
def weakLink (now : Nat) (m : TopicMesh) :
    TopicMesh × List (PeerId × MeshControl) :=
  if m.config.d_low ≤ m.mesh_peers.length then
    match minBySnd (meshScores m) with
    | none => (m, [])
    | some (weak_id, weak_score) =>
      match maxBySnd ((m.known_peers.filter (fun kp =>
          ! m.mesh_peers.contains kp.1
            && (lookupA m.backoff kp.1).isNone
            && decide (weak_score + 1/10 < kp.2.score))).map
        (fun kp => (kp.1, kp.2.score))) with
      | none => (m, [])
      | some (best_id, _) =>
        ({ m with
            mesh_peers := insertStr best_id (removeStr weak_id m.mesh_peers)
            known_peers :=
              updateAt best_id (fun p => { p with in_mesh := true })
                (updateAt weak_id (fun p => { p with in_mesh := false }) m.known_peers)
            backoff := insertPair weak_id (now + 30) m.backoff },
         [(weak_id, MeshControl.prune m.topic 30), (best_id, MeshControl.graft m.topic)])
  else (m, [])

/-- Heartbeat step 8 (lazy push): announce up to 10 recent cached
message ids to RNG-selected non-mesh peers; the selection is the
explicit `pick` parameter.  The mesh state is unchanged. -/
def lazyPush (pick : List PeerId → List PeerId) (m : TopicMesh) :
    List (PeerId × MeshControl) :=
  let non_mesh := (keysOf m.known_peers).filter (fun id => ! m.mesh_peers.contains id)
  let targets := pick non_mesh
  if m.message_cache ≠ [] ∧ targets ≠ [] then
    targets.map (fun t => (t, MeshControl.ihave m.topic (m.message_cache.take 10)))
  else []

/-- Full heartbeat (`TopicMesh::heartbeat` in
`src/hypha-core/src/mesh.rs`), returning the new state and the control
messages in emission order. -/
def heartbeat (pick : List PeerId → List PeerId) (now : Nat) (m : TopicMesh) :
    TopicMesh × List (PeerId × MeshControl) :=
  let m2 := sweep now (decay m)
  let r3 := scorePrune now m2
  let r4 := overflowPrune now r3.1.mesh_peers.length r3.1 []
  let r5 := graftLoop r4.1.known_peers.length r4.1 []
  let r6 := oppGraft r5.1
  let r7 := weakLink now r6.1
  (r7.1, r3.2 ++ r4.2 ++ r5.2 ++ r6.2 ++ r7.2 ++ lazyPush pick r7.1)

/-- Handle an incoming GRAFT request (`TopicMesh::handle_graft` in
`src/hypha-core/src/mesh.rs`): rejected during backoff, for unknown or
low-scoring peers, and when the mesh is full; on success the peer joins
the mesh and `in_mesh` is set. -/
def handle_graft (m : TopicMesh) (peer_id : PeerId) : Bool × TopicMesh :=
  if (lookupA m.backoff peer_id).isSome then (false, m)
  else
    match lookupA m.known_peers peer_id with
    | some p =>
      if m.config.graft_threshold ≤ p.score
          ∧ m.mesh_peers.length < m.config.d_high then
        (true,
         { m with
             mesh_peers := insertStr peer_id m.mesh_peers
             known_peers := updateAt peer_id (fun q => { q with in_mesh := true }) m.known_peers })
      else (false, m)
    | none => (false, m)

/-- Handle an incoming PRUNE (`TopicMesh::handle_prune`): leave the
mesh, clear `in_mesh`, and record the backoff expiry `now + backoff`. -/
def handle_prune (m : TopicMesh) (peer_id : PeerId) (backoff : Nat)
    (now : Nat) : TopicMesh :=
  { m with
      mesh_peers := removeStr peer_id m.mesh_peers
      known_peers := updateAt peer_id (fun p => { p with in_mesh := false }) m.known_peers
      backoff := insertPair peer_id (now + backoff) m.backoff }

/-- Handle an incoming spike (`TopicMesh::handle_spike`): intensities
above 200 force `local_pressure` to 10 and add 2.0 to the source's
conductivity (with no upper clamp in the source). -/
def handle_spike (m : TopicMesh) (source : PeerId) (intensity : Nat) :
    TopicMesh :=
  if 200 < intensity then
    let m1 := set_pressure m 10
    { m1 with known_peers :=
        updateAt source (fun p => { p with conductivity := p.conductivity + 2 }) m1.known_peers }
  else m

/-- Control dispatcher (`TopicMesh::handle_control`). -/
def handle_control (m : TopicMesh) (peer_id : PeerId) (control : MeshControl)
    (now : Nat) : Option MeshControl × TopicMesh :=
  match control with
  | MeshControl.graft _ =>
    let r := handle_graft m peer_id
    if r.1 then (none, r.2)
    else (some (MeshControl.prune m.topic 60), r.2)
  | MeshControl.prune _ b => (none, handle_prune m peer_id b now)
  | MeshControl.ihave _ ids =>
    let missing := ids.filter (fun id => ! m.message_cache.contains id)
    if missing ≠ [] then (some (MeshControl.iwant missing), m) else (none, m)
  | MeshControl.iwant _ => (none, m)

end Core

namespace SrcMesh

open Hypha

/-- Model of an `f32` that may be NaN: `none` is NaN, `some q` a finite
value.  The mesh arithmetic of `src/src/mesh.rs` never produces
infinities from finite inputs, so NaN is the only non-finite value the
model needs to track. -/
abbrev F := Option ℚ

/-- NaN-propagating addition. -/
def fadd : F → F → F
  | some a, some b => some (a + b)
  | _, _ => none

/-- NaN-propagating subtraction. -/
def fsub : F → F → F
  | some a, some b => some (a - b)
  | _, _ => none

/-- NaN-propagating multiplication. -/
def fmul : F → F → F
  | some a, some b => some (a * b)
  | _, _ => none

/-- NaN-propagating division (the divisors in scope are nonzero
constants). -/
def fdiv : F → F → F
  | some a, some b => some (a / b)
  | _, _ => none

/-- NaN-propagating absolute value. -/
def fabs : F → F
  | some a => some |a|
  | none => none

/-- Rust `f32::min`: when one argument is NaN, the other is returned. -/
def fmin : F → F → F
  | some a, some b => some (min a b)
  | some a, none => some a
  | none, b => b

/-- Rust `f32::max`: when one argument is NaN, the other is returned. -/
def fmax : F → F → F
  | some a, some b => some (max a b)
  | some a, none => some a
  | none, b => b

/-- Rust `<` on `f32`: any comparison involving NaN is false. -/
def fltb : F → F → Bool
  | some a, some b => decide (a < b)
  | _, _ => false

/-- Rust `>=` on `f32`: any comparison involving NaN is false. -/
def fgeb : F → F → Bool
  | some a, some b => decide (b ≤ a)
  | _, _ => false

/-- Rust `>` on `f32`: any comparison involving NaN is false. -/
def fgtb : F → F → Bool
  | some a, some b => decide (b < a)
  | _, _ => false

/-- Rust `PartialOrd::partial_cmp` on `f32`: `none` when either side is
NaN — the value on which `sort_by`, `min_by` and `max_by` in
`src/src/mesh.rs` call `.unwrap()` and panic. -/
def fpcmp : F → F → Option Ordering
  | some a, some b => some (compare a b)
  | _, _ => none

/-- Peer record (`struct MeshPeer` in `src/src/mesh.rs`), with possibly
NaN float fields. -/
structure MeshPeer where
  id : String
  energy_score : F
  conductivity : F
  pressure : F
  message_count : Nat
  last_seen : Nat
  in_mesh : Bool
deriving DecidableEq, Repr

/-- Fresh peer record (`MeshPeer::new` in `src/src/mesh.rs`). -/
def MeshPeer.new (id : String) (energy_score : F) (now : Nat) : MeshPeer :=
  { id := id
    energy_score := energy_score
    conductivity := some 1
    pressure := some 0
    message_count := 0
    last_seen := now
    in_mesh := false }

/-- Peer score (`MeshPeer::score` in `src/src/mesh.rs`); NaN in the
energy score propagates to a NaN score, while NaN conductivity or
pressure is absorbed by the Rust `min` semantics. -/
def MeshPeer.score (p : MeshPeer) : F :=
  let activity_score := fmin (some ((p.message_count : ℚ) / 100)) (some 1)
  let normalized_conductivity := fdiv (fmin p.conductivity (some 5)) (some 5)
  let pressure_score := fsub (some 1) (fdiv (fmin p.pressure (some 10)) (some 10))
  fadd (fadd (fadd (fmul p.energy_score (some (3/10)))
    (fmul activity_score (some (2/10))))
    (fmul normalized_conductivity (some (3/10))))
    (fmul pressure_score (some (2/10)))

/-- Mesh state for one topic (`struct TopicMesh` in `src/src/mesh.rs`). -/
structure TopicMesh where
  topic : String
  config : MeshConfig
  local_pressure : F
  pulse_phase : F
  mesh_peers : List PeerId
  known_peers : List (PeerId × MeshPeer)
  message_cache : List String
  duplicate_count : Nat
  backoff : List (PeerId × Nat)
deriving DecidableEq, Repr

/-- Fresh mesh (`TopicMesh::new` in `src/src/mesh.rs`); the random
initial pulse phase is a parameter. -/
def TopicMesh.new (topic : String) (config : MeshConfig) (phase : F) :
    TopicMesh :=
  { topic := topic
    config := config
    local_pressure := some 0
    pulse_phase := phase
    mesh_peers := []
    known_peers := []
    message_cache := []
    duplicate_count := 0
    backoff := [] }

/-- Spike handler (`TopicMesh::handle_spike` in `src/src/mesh.rs`):
above intensity 200, pressure jumps to 10 and the source's conductivity
gains 2.0 with no upper clamp. -/
def handle_spike (m : TopicMesh) (source : PeerId) (intensity : Nat) :
    TopicMesh :=
  if 200 < intensity then
    { m with
        local_pressure := some 10
        known_peers :=
          updateAt source (fun p => { p with conductivity := fadd p.conductivity (some 2) }) m.known_peers }
  else m

/-- Idempotent peer insert (`TopicMesh::add_peer` in `src/src/mesh.rs`). -/
def add_peer (m : TopicMesh) (id : PeerId) (energy_score : F) (now : Nat) :
    TopicMesh :=
  if (lookupA m.known_peers id).isSome then m
  else { m with known_peers := m.known_peers ++ [(id, MeshPeer.new id energy_score now)] }

/-- Energy-score update (`TopicMesh::update_peer_score` in
`src/src/mesh.rs`): only updates an already known peer; unknown ids are
silently ignored (no upsert in this variant). -/
def update_peer_score (m : TopicMesh) (id : PeerId) (energy_score : F)
    (now : Nat) : TopicMesh :=
  { m with known_peers :=
      updateAt id (fun p => { p with energy_score := energy_score, last_seen := now }) m.known_peers }

/-- Message recording (`TopicMesh::record_message` in `src/src/mesh.rs`):
conductivity gains `0.1 · max(|local_pressure − peer.pressure|, 0.1)`
with no saturation in this variant. -/
def record_message (m : TopicMesh) (peer_id : PeerId) (msg_id : String)
    (now : Nat) : TopicMesh :=
  let m1 :=
    { m with known_peers :=
        updateAt peer_id (fun p =>
          let pressure_grad := fmax (fabs (fsub m.local_pressure p.pressure)) (some (1/10))
          { p with
            message_count := p.message_count + 1
            last_seen := now
            conductivity := fadd p.conductivity (fmul (some (1/10)) pressure_grad) }) m.known_peers }
  if msg_id ∈ m1.message_cache then
    { m1 with duplicate_count := m1.duplicate_count + 1 }
  else
    { m1 with message_cache := m1.message_cache ++ [msg_id] }

/-- GRAFT handler (`TopicMesh::handle_graft` in `src/src/mesh.rs`): this
variant neither consults the backoff table nor sets `in_mesh` on the
accepted peer. -/
def handle_graft (m : TopicMesh) (peer_id : PeerId) : Bool × TopicMesh :=
  match lookupA m.known_peers peer_id with
  | some p =>
    if fgeb p.score (some m.config.graft_threshold)
        && decide (m.mesh_peers.length < m.config.d_high) then
      (true, { m with mesh_peers := insertStr peer_id m.mesh_peers })
    else (false, m)
  | none => (false, m)

/-- PRUNE handler (`TopicMesh::handle_prune` in `src/src/mesh.rs`). -/
def handle_prune (m : TopicMesh) (peer_id : PeerId) (backoff : Nat)
    (now : Nat) : TopicMesh :=
  { m with
      mesh_peers := removeStr peer_id m.mesh_peers
      known_peers := updateAt peer_id (fun p => { p with in_mesh := false }) m.known_peers
      backoff := insertPair peer_id (now + backoff) m.backoff }

/-- Panic-propagating insertion into an ascending sorted list, using the
panicking comparator `a.partial_cmp(b).unwrap()` of `sort_by` in
`TopicMesh::mesh_median_score`; `none` is a panic. -/
def finsSorted (x : F) : List F → Option (List F)
  | [] => some [x]
  | y :: ys =>
    match fpcmp x y with
    | none => none
    | some Ordering.gt => (finsSorted x ys).map (fun l => y :: l)
    | some _ => some (x :: y :: ys)

/-- Panic-propagating ascending sort of possibly-NaN scores. -/
def fsort : List F → Option (List F)
  | [] => some []
  | x :: xs =>
    match fsort xs with
    | none => none
    | some s => finsSorted x s

/-- Rust `min_by` with the panicking comparator: outer `none` is a
panic, inner `none` an empty iterator (no comparison is made for a
single element). -/
def fminBySnd (l : List (PeerId × F)) : Option (Option (PeerId × F)) :=
  match l with
  | [] => some none
  | x :: xs => go x xs
where
  go (a : PeerId × F) : List (PeerId × F) → Option (Option (PeerId × F))
    | [] => some (some a)
    | y :: ys =>
      match fpcmp y.2 a.2 with
      | none => none
      | some Ordering.lt => go y ys
      | some _ => go a ys

/-- Rust `max_by` with the panicking comparator (keeps the last maximal
element). -/
def fmaxBySnd (l : List (PeerId × F)) : Option (Option (PeerId × F)) :=
  match l with
  | [] => some none
  | x :: xs => go x xs
where
  go (a : PeerId × F) : List (PeerId × F) → Option (Option (PeerId × F))
    | [] => some (some a)
    | y :: ys =>
      match fpcmp a.2 y.2 with
      | none => none
      | some Ordering.gt => go a ys
      | some _ => go y ys

/-- Mesh member scores in membership order. -/
def meshScores (m : TopicMesh) : List (PeerId × F) :=
  m.mesh_peers.filterMap (fun id =>
    (lookupA m.known_peers id).map (fun p => (id, p.score)))

/-- Median mesh score (`TopicMesh::mesh_median_score` in
`src/src/mesh.rs`); panics (`none`) when the sort compares a NaN score. -/
def mesh_median_score (m : TopicMesh) : Option F :=
  let scores := (meshScores m).map Prod.snd
  if scores = [] then some (some 0)
  else
    match fsort scores with
    | none => none
    | some sorted =>
      let mid := sorted.length / 2
      if sorted.length % 2 = 0 then
        some (fdiv (fadd (sorted.getD (mid - 1) (some 0)) (sorted.getD mid (some 0))) (some 2))
      else some (sorted.getD mid (some 0))

/-- Prune condition of this variant's heartbeat step 3 (NaN scores are
not below the threshold, hence kept). -/
def pruneCond (m : TopicMesh) (id : PeerId) : Bool :=
  match lookupA m.known_peers id with
  | some p => fltb p.score (some m.config.prune_threshold)
  | none => true

/-- Score-based prune of `src/src/mesh.rs`: unlike the hypha-core
variant it does not clear `in_mesh` on the pruned peers. -/
def scorePrune (now : Nat) (m : TopicMesh) :
    TopicMesh × List (PeerId × MeshControl) :=
  let to_prune := m.mesh_peers.filter (fun id => pruneCond m id)
  ({ m with
      mesh_peers := m.mesh_peers.filter (fun id => ! pruneCond m id)
      backoff := to_prune.foldl (fun b id => insertPair id (now + 60) b) m.backoff },
   to_prune.map (fun id => (id, MeshControl.prune m.topic 60)))

/-- Overflow prune of `src/src/mesh.rs` (panic-propagating `min_by`; no
backoff record and no `in_mesh` clear in this variant). -/
def overflowPrune :
    Nat → TopicMesh → List (PeerId × MeshControl) →
    Option (TopicMesh × List (PeerId × MeshControl))
  | 0, m, acc => some (m, acc)
  | fuel + 1, m, acc =>
    if m.mesh_peers.length ≤ m.config.d_high then some (m, acc)
    else
      match fminBySnd (meshScores m) with
      | none => none
      | some none => some (m, acc)
      | some (some (id, _)) =>
        overflowPrune fuel
          { m with mesh_peers := removeStr id m.mesh_peers }
          (acc ++ [(id, MeshControl.prune m.topic 60)])

/-- Underflow graft candidate of `src/src/mesh.rs` (panic-propagating
`max_by`; NaN scores never pass the `>=` filter). -/
def graftCandidate (m : TopicMesh) : Option (Option (PeerId × F)) :=
  fmaxBySnd ((m.known_peers.filter (fun kp =>
      ! m.mesh_peers.contains kp.1
        && (lookupA m.backoff kp.1).isNone
        && fgeb kp.2.score (some m.config.graft_threshold))).map
    (fun kp => (kp.1, kp.2.score)))

/-- Underflow graft loop of `src/src/mesh.rs` (sets `in_mesh` on the
grafted peer, as the source does here). -/
def graftLoop :
    Nat → TopicMesh → List (PeerId × MeshControl) →
    Option (TopicMesh × List (PeerId × MeshControl))
  | 0, m, acc => some (m, acc)
  | fuel + 1, m, acc =>
    if m.config.d_low ≤ m.mesh_peers.length then some (m, acc)
    else
      match graftCandidate m with
      | none => none
      | some none => some (m, acc)
      | some (some (id, _)) =>
        graftLoop fuel
          { m with
              mesh_peers := insertStr id m.mesh_peers
              known_peers := updateAt id (fun p => { p with in_mesh := true }) m.known_peers }
          (acc ++ [(id, MeshControl.graft m.topic)])

/-- Opportunistic grafting of `src/src/mesh.rs`: takes the first two
qualifying candidates in iteration order (no sorting in this variant). -/
def oppGraft (m : TopicMesh) : Option (TopicMesh × List (PeerId × MeshControl)) :=
  match mesh_median_score m with
  | none => none
  | some median =>
    if fltb median (some m.config.opportunistic_graft_threshold)
        && decide (m.mesh_peers.length < m.config.d_high) then
      let candidates :=
        ((m.known_peers.filter (fun kp =>
            ! m.mesh_peers.contains kp.1
              && (lookupA m.backoff kp.1).isNone
              && fgtb kp.2.score median)).take 2).map Prod.fst
      some (candidates.foldl (fun st id =>
        if st.1.config.d_high ≤ st.1.mesh_peers.length then st
        else
          ({ st.1 with
              mesh_peers := insertStr id st.1.mesh_peers
              known_peers := updateAt id (fun p => { p with in_mesh := true }) st.1.known_peers },
           st.2 ++ [(id, MeshControl.graft m.topic)]))
        (m, []))
    else some (m, [])

/-- Weak-link replacement of `src/src/mesh.rs` (panic-propagating
`min_by`/`max_by`; no backoff record and no `in_mesh` clear for the
pruned peer in this variant). -/
def weakLink (m : TopicMesh) : Option (TopicMesh × List (PeerId × MeshControl)) :=
  if m.config.d_low ≤ m.mesh_peers.length then
    match fminBySnd (meshScores m) with
    | none => none
    | some none => some (m, [])
    | some (some (weak_id, weak_score)) =>
      match fmaxBySnd ((m.known_peers.filter (fun kp =>
          ! m.mesh_peers.contains kp.1
            && (lookupA m.backoff kp.1).isNone
            && fgtb kp.2.score (fadd weak_score (some (1/10))))).map
        (fun kp => (kp.1, kp.2.score))) with
      | none => none
      | some none => some (m, [])
      | some (some (best_id, _)) =>
        some
          ({ m with
              mesh_peers := insertStr best_id (removeStr weak_id m.mesh_peers)
              known_peers := updateAt best_id (fun p => { p with in_mesh := true }) m.known_peers },
           [(weak_id, MeshControl.prune m.topic 30), (best_id, MeshControl.graft m.topic)])
  else some (m, [])

/-- Conductivity decay of `src/src/mesh.rs` (`(c * 0.95).max(0.5)`; a
NaN conductivity is absorbed to 0.5 by Rust `max`). -/
def decay (m : TopicMesh) : TopicMesh :=
  { m with known_peers := m.known_peers.map (fun kp =>
      (kp.1, { kp.2 with conductivity := fmax (fmul kp.2.conductivity (some (95/100))) (some (1/2)) })) }

/-- Backoff sweep of `src/src/mesh.rs`. -/
def sweep (now : Nat) (m : TopicMesh) : TopicMesh :=
  { m with backoff := m.backoff.filter (fun kp => now < kp.2) }

/-- Lazy push of `src/src/mesh.rs` (RNG selection as a parameter; state
unchanged). -/
def lazyPush (pick : List PeerId → List PeerId) (m : TopicMesh) :
    List (PeerId × MeshControl) :=
  let non_mesh := (keysOf m.known_peers).filter (fun id => ! m.mesh_peers.contains id)
  let targets := pick non_mesh
  if m.message_cache ≠ [] ∧ targets ≠ [] then
    targets.map (fun t => (t, MeshControl.ihave m.topic (m.message_cache.take 10)))
  else []

/-- Full heartbeat of `src/src/mesh.rs`; `none` models a panic from one
of the `partial_cmp(..).unwrap()` comparisons on a NaN score. -/
def heartbeat (pick : List PeerId → List PeerId) (now : Nat) (m : TopicMesh) :
    Option (TopicMesh × List (PeerId × MeshControl)) :=
  let m2 := sweep now (decay m)
  let r3 := scorePrune now m2
  match overflowPrune r3.1.mesh_peers.length r3.1 [] with
  | none => none
  | some r4 =>
    match graftLoop r4.1.known_peers.length r4.1 [] with
    | none => none
    | some r5 =>
      match oppGraft r5.1 with
      | none => none
      | some r6 =>
        match weakLink r6.1 with
        | none => none
        | some r7 =>
          some (r7.1, r3.2 ++ r4.2 ++ r5.2 ++ r6.2 ++ r7.2 ++ lazyPush pick r7.1)

end SrcMesh

namespace Agent

/-- Capability variants (`enum Capability` in
`src/hypha-core/src/agent.rs`); two capabilities match iff they are the
same variant with the same payload (`PartialEq` derive). -/
inductive Capability where
  | compute (n : Nat)
  | storage (n : Nat)
  | sensing (tag : String)
deriving DecidableEq, Repr

/-- Task record (`struct Task` in `src/hypha-core/src/agent.rs`). -/
structure Task where
  id : String
  required_capability : Capability
  priority : Nat
  reach_intensity : ℚ
  source_id : String
  auth_token : Option String
deriving DecidableEq, Repr

/-- Reach diffusion to a neighbor (`Task::diffuse`): the reach is
attenuated by clamped conductivity, neighbor energy, and neighbor
pressure headroom, times 0.9. -/
def Task.diffuse (t : Task) (conductivity neighbor_energy neighbor_pressure : ℚ) : ℚ :=
  let pressure_factor := 1 - (min neighbor_pressure 10) / 10
  t.reach_intensity
    * (min conductivity 3)
    * (min (neighbor_energy + 1/5) 1)
    * (min (pressure_factor + 1/10) 1)
    * (9/10)

/-- Bid record (`struct Bid` in `src/hypha-core/src/agent.rs`). -/
structure Bid where
  task_id : String
  bidder_id : String
  energy_score : ℚ
  cost_mah : ℚ
deriving DecidableEq, Repr

end Agent

namespace Metabolism

/-- Battery-backed metabolism (`struct BatteryMetabolism` in
`src/hypha-core/src/metabolism.rs`). -/
structure BatteryMetabolism where
  voltage : ℚ
  mah_remaining : ℚ
  temp_celsius : ℚ
  is_mains : Bool
deriving DecidableEq, Repr

/-- Default battery state (`impl Default for BatteryMetabolism`). -/
def BatteryMetabolism.default : BatteryMetabolism :=
  { voltage := 42/10
    mah_remaining := 2500
    temp_celsius := 25
    is_mains := false }

/-- Energy score (`BatteryMetabolism::energy_score`): mains power pins
it to 1; otherwise a 40/60 voltage/capacity blend clamped to [0, 1]. -/
def energy_score (b : BatteryMetabolism) : ℚ :=
  if b.is_mains then 1
  else
    let v_score := (b.voltage - 33/10) / (42/10 - 33/10)
    let c_score := b.mah_remaining / 2500
    min (max (v_score * (4/10) + c_score * (6/10)) 0) 1

/-- Consumption (`BatteryMetabolism::consume`): refuses when already
depleted, otherwise subtracts the cost saturating at 0 and recomputes
the voltage from the remaining capacity. -/
def consume (b : BatteryMetabolism) (cost : ℚ) : Bool × BatteryMetabolism :=
  if b.mah_remaining ≤ 0 then (false, b)
  else
    let mah := max (b.mah_remaining - cost) 0
    let capacity_ratio := mah / 2500
    (true, { b with mah_remaining := mah, voltage := 33/10 + capacity_ratio * (9/10) })

end Metabolism

namespace Node

open Agent

/-- Quorum-sensing auction (`SporeNode::evaluate_task` in
`src/src/lib.rs`): the node declines when three or more bids are known
and its energy score is below 0.8, or when the score is below 0.2;
otherwise it bids `{task.id, self, score, 50}` iff it holds the required
capability.  The score parameter models the `self.energy_score()` read
at the top of the function. -/
def evaluate_task (capabilities : List Capability) (peer_id : String)
    (score : ℚ) (task : Task) (known_bids : Nat) : Option Bid :=
  if 3 ≤ known_bids ∧ score < 8/10 then none
  else if score < 2/10 then none
  else if task.required_capability ∈ capabilities then
    some { task_id := task.id, bidder_id := peer_id, energy_score := score, cost_mah := 50 }
  else none

end Node

open Hypha

/-- Deterministic stand-in for the lazy-push RNG selection in concrete
evaluations (it never affects the mesh state). -/
def pick0 : List PeerId → List PeerId := fun l => l.take 6

/-- Concrete mesh for the NaN heartbeat evaluation: two peers grafted
through the public API, after which peer `b` advertises a NaN energy
score. -/
def c1m : SrcMesh.TopicMesh :=
  SrcMesh.update_peer_score
    ((SrcMesh.handle_graft
      ((SrcMesh.handle_graft
        (SrcMesh.add_peer
          (SrcMesh.add_peer (SrcMesh.TopicMesh.new "t" MeshConfig.default (some 0))
            "a" (some (6/10)) 0)
          "b" (some (1/2)) 0)
        "a").2)
      "b").2)
    "b" none 0

/-- Concrete src-variant mesh with one known good peer, just pruned. -/
def c2src1 : SrcMesh.TopicMesh :=
  SrcMesh.handle_prune
    (SrcMesh.add_peer (SrcMesh.TopicMesh.new "t" MeshConfig.default (some 0))
      "a" (some (9/10)) 0)
    "a" 60 0

/-- Concrete hypha-core mesh in the same state. -/
def c2core1 : Core.TopicMesh :=
  Core.handle_prune
    (Core.add_peer (Core.TopicMesh.new "t" MeshConfig.default 0) "a" (9/10) 0)
    "a" 60 0

/-- Concrete src-variant mesh where a healthy peer was admitted through
`handle_graft` (which does not set `in_mesh` in this variant). -/
def c3m : SrcMesh.TopicMesh :=
  (SrcMesh.handle_graft
    (SrcMesh.add_peer (SrcMesh.TopicMesh.new "t" MeshConfig.default (some 0))
      "A" (some (9/10)) 0)
    "A").2

/-- One danger spike toward peer `D`. -/
def c5spike (m : SrcMesh.TopicMesh) : SrcMesh.TopicMesh :=
  SrcMesh.handle_spike m "D" 255

/-- Concrete src-variant mesh after five danger spikes from `D`. -/
def c5m : SrcMesh.TopicMesh :=
  c5spike (c5spike (c5spike (c5spike (c5spike
    (SrcMesh.add_peer (SrcMesh.TopicMesh.new "t" MeshConfig.default (some 0))
      "D" (some (1/2)) 0)))))

/-- Fresh src-variant mesh receiving a status from an unseen peer. -/
def c6src : SrcMesh.TopicMesh :=
  SrcMesh.update_peer_score (SrcMesh.TopicMesh.new "t" MeshConfig.default (some 0))
    "peer-a" (some (7/10)) 0

/-- Fresh hypha-core mesh receiving the same status. -/
def c6core : Core.TopicMesh :=
  Core.update_peer_score (Core.TopicMesh.new "t" MeshConfig.default 0) "peer-a" (7/10) 0

/-- Concrete hypha-core mesh whose cache already holds `"m1"`. -/
def c7m : Core.TopicMesh :=
  Core.record_message
    (Core.add_peer (Core.TopicMesh.new "t" MeshConfig.default 0) "p" (8/10) 0)
    "p" "m1" 0

/-- N-fold repetition of `record_message` with the same peer and message
id, used to state the dedup claim. -/
def recordN (p mid : String) (now : Nat) : Nat → Core.TopicMesh → Core.TopicMesh
  | 0, m => m
  | n + 1, m => recordN p mid now n (Core.record_message m p mid now)

/-- Concrete hypha-core mesh with one known peer and an empty cache, for
the dedup witness. -/
def c7w : Core.TopicMesh :=
  Core.add_peer (Core.TopicMesh.new "t" MeshConfig.default 0) "A" (8/10) 0

/-- All known peers have conductivity at least the 0.5 floor. -/
abbrev CondLB (m : Core.TopicMesh) : Prop :=
  ∀ kp ∈ m.known_peers, (1/2 : ℚ) ≤ kp.2.conductivity

/-- All known peers have conductivity at most the 10.0 ceiling. -/
abbrev CondUB (m : Core.TopicMesh) : Prop :=
  ∀ kp ∈ m.known_peers, kp.2.conductivity ≤ (10 : ℚ)

/-- Every mesh member has a record in the peer directory (the
`mesh_peers ⊆ keys(known_peers)` invariant of the spec). -/
def MeshSub (m : Core.TopicMesh) : Prop :=
  ∀ id ∈ m.mesh_peers, id ∈ keysOf m.known_peers

/-- Concrete mesh with pulse phase 0.1 for the alignment witness. -/
def c8m : Core.TopicMesh :=
  Core.TopicMesh.new "t" MeshConfig.default (1/10)

/-- Concrete hypha-core mesh with two known peers, for the heartbeat
degree-bound witness. -/
def c4w : Core.TopicMesh :=
  Core.add_peer
    (Core.add_peer (Core.TopicMesh.new "t" MeshConfig.default 0) "x" (9/10) 0)
    "y" (2/10) 0

/-- Concrete task used to instantiate the auction claims. -/
def c9task : Agent.Task :=
  { id := "t1"
    required_capability := Agent.Capability.compute 100
    priority := 1
    reach_intensity := 1
    source_id := "s"
    auth_token := none }

section HelperLemmas

/-- Lookup succeeds exactly on the keys of an association list. -/
theorem lookup_isSome_iff {β : Type} (l : List (PeerId × β)) (a : PeerId) :
    (lookupA l a).isSome ↔ a ∈ keysOf l := by
  induction l with
  | nil => simp [keysOf, lookupA]
  | cons kp t ih =>
    obtain ⟨k, v⟩ := kp
    by_cases h : a = k
    · subst h
      simp [keysOf, lookupA]
    · simp [keysOf, lookupA, h, ih]

/-- Updating a value in place does not change the key list. -/
theorem keysOf_updateAt {β : Type} (id : PeerId) (f : β → β)
    (l : List (PeerId × β)) : keysOf (updateAt id f l) = keysOf l := by
  induction l with
  | nil => rfl
  | cons kp t ih =>
    by_cases h : kp.1 = id <;> simp [keysOf, updateAt, h] at ih ⊢ <;> exact ih

/-- Lookup after an in-place update at the same key. -/
theorem lookup_updateAt_self {β : Type} (id : PeerId) (f : β → β)
    (l : List (PeerId × β)) :
    lookupA (updateAt id f l) id = (lookupA l id).map f := by
  induction l with
  | nil => rfl
  | cons kp t ih =>
    obtain ⟨k, v⟩ := kp
    by_cases h : k = id
    · subst h
      have hmap : updateAt k f ((k, v) :: t) = (k, f v) :: updateAt k f t := by
        simp [updateAt]
      rw [hmap]
      simp [lookupA]
    · have h' : ¬ (id = k) := fun e => h e.symm
      have hmap : updateAt id f ((k, v) :: t) = (k, v) :: updateAt id f t := by
        simp [updateAt, h]
      rw [hmap]
      simp [lookupA, h', ih]

/-- Predicate preservation for in-place updates. -/
theorem updateAt_forall {β : Type} {P : β → Prop} (id : PeerId) (f : β → β)
    (l : List (PeerId × β)) (hf : ∀ x, P x → P (f x))
    (h : ∀ kp ∈ l, P kp.2) : ∀ kp ∈ updateAt id f l, P kp.2 := by
  intro kp hkp
  obtain ⟨kq, hkq, rfl⟩ := List.mem_map.mp hkp
  by_cases hk : kq.1 = id
  · simpa [hk] using hf _ (h _ hkq)
  · simpa [hk] using h _ hkq

/-- A fold that always keeps either the accumulator or the new element
stays inside the accumulator-or-list choice. -/
theorem foldl_min_choice (xs : List (PeerId × ℚ)) :
    ∀ a : PeerId × ℚ,
      xs.foldl (fun a y => if y.2 < a.2 then y else a) a = a
      ∨ xs.foldl (fun a y => if y.2 < a.2 then y else a) a ∈ xs := by
  induction xs with
  | nil => intro a; exact Or.inl rfl
  | cons y ys ih =>
    intro a
    simp only [List.foldl_cons]
    by_cases hy : y.2 < a.2
    · rw [if_pos hy]
      rcases ih y with h | h
      · exact Or.inr (by rw [h]; exact List.mem_cons_self y ys)
      · exact Or.inr (List.mem_cons_of_mem _ h)
    · rw [if_neg hy]
      rcases ih a with h | h
      · exact Or.inl h
      · exact Or.inr (List.mem_cons_of_mem _ h)

/-- Same choice property for the max-keeping fold. -/
theorem foldl_max_choice (xs : List (PeerId × ℚ)) :
    ∀ a : PeerId × ℚ,
      xs.foldl (fun a y => if a.2 ≤ y.2 then y else a) a = a
      ∨ xs.foldl (fun a y => if a.2 ≤ y.2 then y else a) a ∈ xs := by
  induction xs with
  | nil => intro a; exact Or.inl rfl
  | cons y ys ih =>
    intro a
    simp only [List.foldl_cons]
    by_cases hy : a.2 ≤ y.2
    · rw [if_pos hy]
      rcases ih y with h | h
      · exact Or.inr (by rw [h]; exact List.mem_cons_self y ys)
      · exact Or.inr (List.mem_cons_of_mem _ h)
    · rw [if_neg hy]
      rcases ih a with h | h
      · exact Or.inl h
      · exact Or.inr (List.mem_cons_of_mem _ h)

/-- The selected minimum is an element of the list. -/
theorem minBySnd_mem {l : List (PeerId × ℚ)} {x : PeerId × ℚ}
    (h : minBySnd l = some x) : x ∈ l := by
  cases l with
  | nil => simp [minBySnd] at h
  | cons a xs =>
    simp only [minBySnd, Option.some_inj] at h
    rcases foldl_min_choice xs a with h' | h'
    · rw [← h]; rw [h']; exact List.mem_cons_self a xs
    · rw [← h]; exact List.mem_cons_of_mem _ h'

/-- The selected maximum is an element of the list. -/
theorem maxBySnd_mem {l : List (PeerId × ℚ)} {x : PeerId × ℚ}
    (h : maxBySnd l = some x) : x ∈ l := by
  cases l with
  | nil => simp [maxBySnd] at h
  | cons a xs =>
    simp only [maxBySnd, Option.some_inj] at h
    rcases foldl_max_choice xs a with h' | h'
    · rw [← h]; rw [h']; exact List.mem_cons_self a xs
    · rw [← h]; exact List.mem_cons_of_mem _ h'

/-- Membership in the mesh-score list projects to mesh membership. -/
theorem meshScores_mem_mesh {m : Core.TopicMesh} {id : PeerId} {s : ℚ}
    (h : (id, s) ∈ Core.meshScores m) : id ∈ m.mesh_peers := by
  obtain ⟨a, ha, hmap⟩ := List.mem_filterMap.mp h
  obtain ⟨p, _, hps⟩ := Option.map_eq_some'.mp hmap
  obtain ⟨rfl, -⟩ := Prod.mk.injEq .. ▸ hps
  exact ha

/-- A nonempty mesh all of whose members are known yields a nonempty
score list. -/
theorem meshScores_ne_nil {m : Core.TopicMesh}
    (hsub : MeshSub m) (hne : m.mesh_peers ≠ []) :
    Core.meshScores m ≠ [] := by
  obtain ⟨id, hid⟩ := List.exists_mem_of_ne_nil _ hne
  have hk := (lookup_isSome_iff m.known_peers id).mpr (hsub id hid)
  obtain ⟨p, hp⟩ := Option.isSome_iff_exists.mp hk
  have : (id, p.score) ∈ Core.meshScores m :=
    List.mem_filterMap.mpr ⟨id, hid, by rw [hp]; rfl⟩
  exact List.ne_nil_of_mem this

/-- Removing a present element strictly shrinks the set. -/
theorem length_removeStr_lt {id : PeerId} {l : List PeerId} (h : id ∈ l) :
    (removeStr id l).length < l.length := by
  induction l with
  | nil => cases h
  | cons a t ih =>
    by_cases ha : a = id
    · have hle : (removeStr id t).length ≤ t.length := List.length_filter_le _ _
      simpa [removeStr, ha] using Nat.lt_succ_of_le hle
    · rcases List.mem_cons.mp h with h' | h'
      · exact absurd h'.symm ha
      · simpa [removeStr, ha] using Nat.succ_lt_succ (ih h')

/-- Inserting grows the set by at most one. -/
theorem length_insertStr_le (id : PeerId) (l : List PeerId) :
    (insertStr id l).length ≤ l.length + 1 := by
  by_cases h : id ∈ l <;> simp [insertStr, h]

/-- The score-based prune leaves the peer-directory key set unchanged. -/
theorem keysOf_scorePrune (now : Nat) (m : Core.TopicMesh) :
    keysOf (Core.scorePrune now m).1.known_peers = keysOf m.known_peers := by
  simp only [Core.scorePrune, keysOf, List.map_map]
  refine List.map_congr_left ?_
  intro kp _
  simp only [Function.comp_apply]
  split <;> rfl

/-- After the score-based prune, every remaining mesh member is known. -/
theorem scorePrune_sub (now : Nat) (m : Core.TopicMesh) :
    MeshSub (Core.scorePrune now m).1 := by
  intro id hid
  have hmem : id ∈ m.mesh_peers.filter (fun id => ! Core.pruneCond m id) := hid
  have hflt := (List.mem_filter.mp hmem).2
  rw [keysOf_scorePrune]
  cases hl : lookupA m.known_peers id with
  | none => simp [Core.pruneCond, hl] at hflt
  | some p =>
    exact (lookup_isSome_iff m.known_peers id).mp (by rw [hl]; rfl)

/-- The overflow-prune loop drives the mesh to at most `d_high` members
whenever the fuel covers the excess and every member is known; it never
touches the configuration. -/
theorem overflowPrune_le (now : Nat) :
    ∀ (fuel : Nat) (m : Core.TopicMesh) (acc : List (PeerId × MeshControl)),
      MeshSub m →
      m.mesh_peers.length ≤ fuel + m.config.d_high →
      (Core.overflowPrune now fuel m acc).1.mesh_peers.length ≤ m.config.d_high
      ∧ (Core.overflowPrune now fuel m acc).1.config = m.config := by
  intro fuel
  induction fuel with
  | zero =>
    intro m acc _ hlen
    exact ⟨by simpa using hlen, rfl⟩
  | succ n ih =>
    intro m acc hsub hlen
    by_cases hle : m.mesh_peers.length ≤ m.config.d_high
    · simp only [Core.overflowPrune, if_pos hle]
      exact ⟨hle, trivial⟩
    · have hne : m.mesh_peers ≠ [] := by
        intro hnil
        exact hle (by simp [hnil])
      obtain ⟨x, hx⟩ : ∃ x, minBySnd (Core.meshScores m) = some x := by
        cases hms : Core.meshScores m with
        | nil => exact absurd hms (meshScores_ne_nil hsub hne)
        | cons a xs => exact ⟨_, rfl⟩
      obtain ⟨id, s⟩ := x
      have hidmem : id ∈ m.mesh_peers := meshScores_mem_mesh (minBySnd_mem hx)
      simp only [Core.overflowPrune, if_neg hle, hx]
      have hrem := length_removeStr_lt hidmem
      refine (ih _ _ ?_ ?_)
      · intro j hj
        have hj2 : j ∈ m.mesh_peers.filter (fun x => x ≠ id) := hj
        have hj' : j ∈ m.mesh_peers := (List.mem_filter.mp hj2).1
        have hk := hsub j hj'
        show j ∈ keysOf (updateAt id (fun p => { p with in_mesh := false }) m.known_peers)
        rw [keysOf_updateAt]
        exact hk
      · show (removeStr id m.mesh_peers).length ≤ n + m.config.d_high
        omega

/-- The underflow-graft loop never pushes the mesh beyond
`max |mesh| d_low` and never touches the configuration. -/
theorem graftLoop_le :
    ∀ (fuel : Nat) (m : Core.TopicMesh) (acc : List (PeerId × MeshControl)),
      (Core.graftLoop fuel m acc).1.mesh_peers.length
        ≤ max m.mesh_peers.length m.config.d_low
      ∧ (Core.graftLoop fuel m acc).1.config = m.config := by
  intro fuel
  induction fuel with
  | zero =>
    intro m acc
    exact ⟨le_max_left _ _, rfl⟩
  | succ n ih =>
    intro m acc
    by_cases hge : m.config.d_low ≤ m.mesh_peers.length
    · simp only [Core.graftLoop, if_pos hge]
      exact ⟨le_max_left _ _, trivial⟩
    · cases hc : Core.graftCandidate m with
      | none =>
        simp only [Core.graftLoop, if_neg hge, hc]
        exact ⟨le_max_left _ _, trivial⟩
      | some x =>
        obtain ⟨id, s⟩ := x
        simp only [Core.graftLoop, if_neg hge, hc]
        have hlen : (insertStr id m.mesh_peers).length ≤ m.config.d_low := by
          have := length_insertStr_le id m.mesh_peers
          omega
        obtain ⟨ha, hb⟩ := ih
          { m with
              mesh_peers := insertStr id m.mesh_peers
              known_peers := updateAt id (fun p => { p with in_mesh := true }) m.known_peers }
          (acc ++ [(id, MeshControl.graft m.topic)])
        refine ⟨le_trans ha ?_, hb⟩
        exact le_trans (max_le hlen (le_refl _)) (le_max_right _ _)

/-- Each opportunistic-graft fold step respects the `d_high` cap and
keeps the configuration. -/
theorem oppFold_le (topic : String) :
    ∀ (ids : List PeerId) (st : Core.TopicMesh × List (PeerId × MeshControl)),
      ((ids.foldl (Core.oppStep topic) st).1.mesh_peers.length
        ≤ max st.1.mesh_peers.length st.1.config.d_high)
      ∧ (ids.foldl (Core.oppStep topic) st).1.config = st.1.config := by
  intro ids
  induction ids with
  | nil =>
    intro st
    exact ⟨le_max_left _ _, rfl⟩
  | cons id rest ih =>
    intro st
    simp only [List.foldl_cons]
    by_cases hcap : st.1.config.d_high ≤ st.1.mesh_peers.length
    · have hstep : Core.oppStep topic st id = st := by
        simp [Core.oppStep, hcap]
      rw [hstep]
      exact ih st
    · have hlen : (Core.oppStep topic st id).1.mesh_peers.length ≤ st.1.config.d_high := by
        simp only [Core.oppStep, if_neg hcap]
        have := length_insertStr_le id st.1.mesh_peers
        omega
      have hcfg : (Core.oppStep topic st id).1.config = st.1.config := by
        simp only [Core.oppStep, if_neg hcap]
      obtain ⟨ha, hb⟩ := ih (Core.oppStep topic st id)
      refine ⟨le_trans ha ?_, by rw [hb, hcfg]⟩
      rw [hcfg]
      exact max_le (le_trans hlen (le_max_right _ _)) (le_max_right _ _)

/-- Opportunistic grafting never pushes the mesh beyond
`max |mesh| d_high` and keeps the configuration. -/
theorem oppGraft_le (m : Core.TopicMesh) :
    (Core.oppGraft m).1.mesh_peers.length ≤ max m.mesh_peers.length m.config.d_high
    ∧ (Core.oppGraft m).1.config = m.config := by
  simp only [Core.oppGraft]
  split_ifs with h
  · exact oppFold_le m.topic _ (m, [])
  · exact ⟨le_max_left _ _, rfl⟩

/-- Normalization after the Rust remainder: for any input, the
`if < 0 then + 1` correction lands in `[0, 1)` and differs from the
input by an integer. -/
theorem rustMod1_norm (s : ℚ) :
    0 ≤ (if rustMod1 s < 0 then rustMod1 s + 1 else rustMod1 s)
    ∧ (if rustMod1 s < 0 then rustMod1 s + 1 else rustMod1 s) < 1
    ∧ ∃ k : ℤ, (if rustMod1 s < 0 then rustMod1 s + 1 else rustMod1 s) = s + k := by
  by_cases hs : 0 ≤ s
  · have ht : ratTrunc s = ⌊s⌋ := if_pos hs
    have hm0 : 0 ≤ rustMod1 s := by
      rw [rustMod1, ht]
      have := Int.floor_le s
      linarith
    have hm1 : rustMod1 s < 1 := by
      rw [rustMod1, ht]
      have := Int.lt_floor_add_one s
      push_cast at this ⊢
      linarith
    rw [if_neg (not_lt.mpr hm0)]
    refine ⟨hm0, hm1, ⟨-⌊s⌋, ?_⟩⟩
    rw [rustMod1, ht]
    push_cast
    ring
  · have ht : ratTrunc s = ⌈s⌉ := if_neg hs
    have hm0 : rustMod1 s ≤ 0 := by
      rw [rustMod1, ht]
      have := Int.le_ceil s
      linarith
    have hm1 : (-1 : ℚ) < rustMod1 s := by
      rw [rustMod1, ht]
      have := Int.ceil_lt_add_one s
      push_cast at this ⊢
      linarith
    by_cases hneg : rustMod1 s < 0
    · rw [if_pos hneg]
      refine ⟨by linarith, by linarith, ⟨1 - ⌈s⌉, ?_⟩⟩
      rw [rustMod1, ht]
      push_cast
      ring
    · rw [if_neg hneg]
      refine ⟨by linarith, by linarith, ⟨-⌈s⌉, ?_⟩⟩
      rw [rustMod1, ht]
      push_cast
      ring

/-- The circular distance between two phases that differ from `δ` by an
integer, with `|δ| ≤ 1/2`, is exactly `|δ|`. -/
theorem circDist_eq_abs (x y δ : ℚ) (k : ℤ) (hxy : x - y = δ + k)
    (hδ : |δ| ≤ 1/2) : circDist x y = |δ| := by
  have hf : Int.fract (x - y) = Int.fract δ := by
    rw [hxy]
    exact Int.fract_add_int δ k
  rw [circDist, hf]
  rcases le_or_lt 0 δ with h0 | h0
  · have hub := (abs_le.mp hδ).2
    have hlt : δ < 1 := by linarith
    rw [Int.fract_eq_self.mpr ⟨h0, hlt⟩, abs_of_nonneg h0]
    exact min_eq_left (by linarith)
  · have hlb := (abs_le.mp hδ).1
    rw [abs_of_neg h0]
    have hfl : ⌊δ⌋ = -1 := by
      rw [Int.floor_eq_iff]
      constructor
      · push_cast
        linarith
      · push_cast
        linarith
    have hfr : Int.fract δ = δ + 1 := by
      rw [Int.fract, hfl]
      push_cast
      ring
    rw [hfr]
    have h1 : 1 - (δ + 1) = -δ := by ring
    rw [h1]
    exact min_eq_right (by linarith)

/-- The peer-directory effect of `record_message`: an in-place update of
the sender's record, identical in both cache branches. -/
theorem record_message_known (m : Core.TopicMesh) (p mid : String) (now : Nat) :
    (Core.record_message m p mid now).known_peers
      = updateAt p (fun q =>
          { q with
            message_count := q.message_count + 1
            last_seen := now
            conductivity :=
              min (q.conductivity + (1/10) * max |m.local_pressure - q.pressure| (1/10)) 10 })
        m.known_peers := by
  simp only [Core.record_message]
  split_ifs <;> rfl

/-- The lookup view of `record_message`'s peer update. -/
theorem record_message_lookup (m : Core.TopicMesh) (p mid : String) (now : Nat) :
    lookupA (Core.record_message m p mid now).known_peers p
      = (lookupA m.known_peers p).map (fun q =>
          { q with
            message_count := q.message_count + 1
            last_seen := now
            conductivity :=
              min (q.conductivity + (1/10) * max |m.local_pressure - q.pressure| (1/10)) 10 }) := by
  rw [record_message_known, lookup_updateAt_self]

/-- Recording a fresh message id leaves `duplicate_count` unchanged and
appends the id to the cache. -/
theorem record_message_fresh (m : Core.TopicMesh) (p mid : String) (now : Nat)
    (hm : mid ∉ m.message_cache) :
    (Core.record_message m p mid now).duplicate_count = m.duplicate_count
    ∧ (Core.record_message m p mid now).message_cache = m.message_cache ++ [mid] := by
  refine ⟨?_, ?_⟩ <;> simp [Core.record_message, hm]

/-- Recording an already-cached id bumps `duplicate_count` and leaves
the cache unchanged. -/
theorem record_message_cached (m : Core.TopicMesh) (p mid : String) (now : Nat)
    (hm : mid ∈ m.message_cache) :
    (Core.record_message m p mid now).duplicate_count = m.duplicate_count + 1
    ∧ (Core.record_message m p mid now).message_cache = m.message_cache := by
  refine ⟨?_, ?_⟩ <;> simp [Core.record_message, hm]

/-- Repeated recording of an id already in the cache: every call is a
duplicate and the sender's message count advances once per call. -/
theorem recordN_cached (p mid : String) (now : Nat) :
    ∀ (k : Nat) (m : Core.TopicMesh), mid ∈ m.message_cache →
      (recordN p mid now k m).duplicate_count = m.duplicate_count + k
      ∧ (recordN p mid now k m).message_cache = m.message_cache
      ∧ (lookupA (recordN p mid now k m).known_peers p).map Core.MeshPeer.message_count
          = (lookupA m.known_peers p).map (fun r => r.message_count + k) := by
  intro k
  induction k with
  | zero =>
    intro m _
    refine ⟨rfl, rfl, ?_⟩
    show (lookupA m.known_peers p).map Core.MeshPeer.message_count
      = (lookupA m.known_peers p).map (fun r => r.message_count + 0)
    cases lookupA m.known_peers p <;> simp
  | succ n ih =>
    intro m hm
    have hrc := record_message_cached m p mid now hm
    have hm1 : mid ∈ (Core.record_message m p mid now).message_cache := by
      rw [hrc.2]
      exact hm
    obtain ⟨ih1, ih2, ih3⟩ := ih (Core.record_message m p mid now) hm1
    refine ⟨?_, ?_, ?_⟩
    · show (recordN p mid now n (Core.record_message m p mid now)).duplicate_count
        = m.duplicate_count + (n + 1)
      rw [ih1, hrc.1]
      omega
    · show (recordN p mid now n (Core.record_message m p mid now)).message_cache
        = m.message_cache
      rw [ih2, hrc.2]
    · show (lookupA (recordN p mid now n (Core.record_message m p mid now)).known_peers p).map
          Core.MeshPeer.message_count
        = (lookupA m.known_peers p).map (fun r => r.message_count + (n + 1))
      rw [ih3, record_message_lookup]
      cases lookupA m.known_peers p with
      | none => rfl
      | some r =>
        simp only [Option.map_some']
        congr 1
        omega

/-- Conductivity decay establishes the 0.5 floor outright. -/
theorem condLB_decay (m : Core.TopicMesh) : CondLB (Core.decay m) := by
  intro kp hkp
  obtain ⟨kq, _, rfl⟩ := List.mem_map.mp hkp
  exact le_max_right _ _

/-- The backoff sweep leaves the peer directory untouched. -/
theorem condLB_sweep (now : Nat) (m : Core.TopicMesh) (h : CondLB m) :
    CondLB (Core.sweep now m) := h

/-- Setting the `in_mesh` flag preserves the conductivity floor. -/
theorem condLB_updateAt (id : PeerId) (b : Bool)
    (l : List (PeerId × Core.MeshPeer))
    (h : ∀ kp ∈ l, (1/2 : ℚ) ≤ kp.2.conductivity) :
    ∀ kp ∈ updateAt id (fun p => { p with in_mesh := b }) l,
      (1/2 : ℚ) ≤ kp.2.conductivity :=
  @updateAt_forall Core.MeshPeer (fun v => (1/2 : ℚ) ≤ v.conductivity) id
    (fun p => { p with in_mesh := b }) l (fun _ hx => hx) h

/-- Score-based pruning only flips `in_mesh` flags. -/
theorem condLB_scorePrune (now : Nat) (m : Core.TopicMesh) (h : CondLB m) :
    CondLB (Core.scorePrune now m).1 := by
  intro kp hkp
  obtain ⟨kq, hkq, rfl⟩ := List.mem_map.mp hkp
  split
  · exact h kq hkq
  · exact h kq hkq

/-- Overflow pruning only flips `in_mesh` flags. -/
theorem condLB_overflow (now : Nat) :
    ∀ (fuel : Nat) (m : Core.TopicMesh) (acc : List (PeerId × MeshControl)),
      CondLB m → CondLB (Core.overflowPrune now fuel m acc).1 := by
  intro fuel
  induction fuel with
  | zero => intro m acc h; exact h
  | succ n ih =>
    intro m acc h
    by_cases hle : m.mesh_peers.length ≤ m.config.d_high
    · simpa only [Core.overflowPrune, if_pos hle] using h
    · cases hmin : minBySnd (Core.meshScores m) with
      | none => simpa only [Core.overflowPrune, if_neg hle, hmin] using h
      | some x =>
        obtain ⟨id, s⟩ := x
        simp only [Core.overflowPrune, if_neg hle, hmin]
        exact ih _ _ (condLB_updateAt id false m.known_peers (fun kp hkp => h kp hkp))

/-- The underflow-graft loop only flips `in_mesh` flags. -/
theorem condLB_graftLoop :
    ∀ (fuel : Nat) (m : Core.TopicMesh) (acc : List (PeerId × MeshControl)),
      CondLB m → CondLB (Core.graftLoop fuel m acc).1 := by
  intro fuel
  induction fuel with
  | zero => intro m acc h; exact h
  | succ n ih =>
    intro m acc h
    by_cases hge : m.config.d_low ≤ m.mesh_peers.length
    · simpa only [Core.graftLoop, if_pos hge] using h
    · cases hc : Core.graftCandidate m with
      | none => simpa only [Core.graftLoop, if_neg hge, hc] using h
      | some x =>
        obtain ⟨id, s⟩ := x
        simp only [Core.graftLoop, if_neg hge, hc]
        exact ih _ _ (condLB_updateAt id true m.known_peers (fun kp hkp => h kp hkp))

/-- Each opportunistic-graft fold step only flips `in_mesh` flags. -/
theorem condLB_oppFold (topic : String) :
    ∀ (ids : List PeerId) (st : Core.TopicMesh × List (PeerId × MeshControl)),
      CondLB st.1 → CondLB (ids.foldl (Core.oppStep topic) st).1 := by
  intro ids
  induction ids with
  | nil => intro st h; exact h
  | cons id rest ih =>
    intro st h
    simp only [List.foldl_cons]
    refine ih (Core.oppStep topic st id) ?_
    by_cases hcap : st.1.config.d_high ≤ st.1.mesh_peers.length
    · simpa only [Core.oppStep, if_pos hcap] using h
    · simp only [Core.oppStep, if_neg hcap]
      exact condLB_updateAt id true st.1.known_peers (fun kp hkp => h kp hkp)

/-- Opportunistic grafting only flips `in_mesh` flags. -/
theorem condLB_oppGraft (m : Core.TopicMesh) (h : CondLB m) :
    CondLB (Core.oppGraft m).1 := by
  simp only [Core.oppGraft]
  split_ifs with hcond
  · exact condLB_oppFold m.topic _ (m, []) h
  · exact h

/-- Weak-link replacement only flips `in_mesh` flags. -/
theorem condLB_weakLink (now : Nat) (m : Core.TopicMesh) (h : CondLB m) :
    CondLB (Core.weakLink now m).1 := by
  simp only [Core.weakLink]
  split_ifs with hge
  · cases hmin : minBySnd (Core.meshScores m) with
    | none => exact h
    | some x =>
      obtain ⟨weak_id, weak_score⟩ := x
      dsimp only
      cases hmax : maxBySnd ((m.known_peers.filter (fun kp =>
          ! m.mesh_peers.contains kp.1
            && (lookupA m.backoff kp.1).isNone
            && decide (weak_score + 1/10 < kp.2.score))).map
        (fun kp => (kp.1, kp.2.score))) with
      | none => exact h
      | some y =>
        obtain ⟨best_id, best_score⟩ := y
        exact condLB_updateAt best_id true _
          (condLB_updateAt weak_id false m.known_peers (fun kp hkp => h kp hkp))
  · exact h

/-- After a full hypha-core heartbeat, every known peer sits at or above
the 0.5 conductivity floor (the decay establishes it and no later step
touches conductivity). -/
theorem condLB_heartbeat (pick : List PeerId → List PeerId) (now : Nat)
    (m : Core.TopicMesh) : CondLB (Core.heartbeat pick now m).1 := by
  have e : (Core.heartbeat pick now m).1
      = (Core.weakLink now (Core.oppGraft (Core.graftLoop
          (Core.overflowPrune now
            (Core.scorePrune now (Core.sweep now (Core.decay m))).1.mesh_peers.length
            (Core.scorePrune now (Core.sweep now (Core.decay m))).1 []).1.known_peers.length
          (Core.overflowPrune now
            (Core.scorePrune now (Core.sweep now (Core.decay m))).1.mesh_peers.length
            (Core.scorePrune now (Core.sweep now (Core.decay m))).1 []).1 []).1).1).1 := rfl
  rw [e]
  exact condLB_weakLink now _ (condLB_oppGraft _ (condLB_graftLoop _ _ _
    (condLB_overflow now _ _ _ (condLB_scorePrune now _
      (condLB_sweep now _ (condLB_decay m))))))

/-- Weak-link replacement never grows the mesh and keeps the
configuration. -/
theorem weakLink_le (now : Nat) (m : Core.TopicMesh) :
    (Core.weakLink now m).1.mesh_peers.length ≤ m.mesh_peers.length
    ∧ (Core.weakLink now m).1.config = m.config := by
  simp only [Core.weakLink]
  split_ifs with h
  · cases hmin : minBySnd (Core.meshScores m) with
    | none => exact ⟨le_refl _, rfl⟩
    | some x =>
      obtain ⟨weak_id, weak_score⟩ := x
      dsimp only
      cases hmax : maxBySnd ((m.known_peers.filter (fun kp =>
          ! m.mesh_peers.contains kp.1
            && (lookupA m.backoff kp.1).isNone
            && decide (weak_score + 1/10 < kp.2.score))).map
        (fun kp => (kp.1, kp.2.score))) with
      | none => exact ⟨le_refl _, rfl⟩
      | some y =>
        obtain ⟨best_id, best_score⟩ := y
        have hweak : weak_id ∈ m.mesh_peers := meshScores_mem_mesh (minBySnd_mem hmin)
        have hrem := length_removeStr_lt hweak
        have hins := length_insertStr_le best_id (removeStr weak_id m.mesh_peers)
        refine ⟨?_, rfl⟩
        show (insertStr best_id (removeStr weak_id m.mesh_peers)).length ≤ m.mesh_peers.length
        omega
  · exact ⟨le_refl _, rfl⟩

end HelperLemmas

section ClaimTheorems

attribute [local semireducible] Rat.add Rat.mul Rat.inv Rat.sub

/-- C1: the claim says `heartbeat()` never panics for any inputs
including NaN.  On the `src/src/mesh.rs` variant a mesh holding a peer
with NaN energy score panics inside `mesh_median_score` (the
`partial_cmp(..).unwrap()` comparator of `sort_by`), modeled here as the
heartbeat evaluating to `none`; the NaN peer is a genuine mesh member of
the failing state. -/
theorem src_heartbeat_panics_on_nan :
    SrcMesh.heartbeat pick0 0 c1m = none ∧ "b" ∈ c1m.mesh_peers := by
  decide

/-- C2: immediately after `handle_prune("a", 60 s)` at `now = 0` the
peer is out of the mesh and `backoff["a"] = now + 60`, as claimed — but
the `src/src/mesh.rs` `handle_graft` ignores the backoff table and
re-admits the peer (returns `true`), contradicting the claim, while the
hypha-core variant returns `false` as claimed. -/
theorem src_graft_ignores_backoff_eval :
    ("a" ∉ c2src1.mesh_peers)
    ∧ lookupA c2src1.backoff "a" = some 60
    ∧ (SrcMesh.handle_graft c2src1 "a").1 = true
    ∧ "a" ∈ (SrcMesh.handle_graft c2src1 "a").2.mesh_peers
    ∧ (Core.handle_graft c2core1 "a").1 = false := by
  decide

/-- C3: after a full `heartbeat()` on the `src/src/mesh.rs` variant, the
API-grafted peer `A` is still a mesh member whose record has
`in_mesh = false`, contradicting the claimed post-heartbeat invariant
(`handle_graft` omits setting the flag and the heartbeat never repairs
it; the hypha-core variant sets the flag on graft). -/
theorem src_graft_breaks_in_mesh_invariant_eval :
    (SrcMesh.heartbeat pick0 0 c3m).isSome = true
    ∧ ((SrcMesh.heartbeat pick0 0 c3m).map (fun r => r.1.mesh_peers.contains "A")) = some true
    ∧ (((SrcMesh.heartbeat pick0 0 c3m).bind
        (fun r => lookupA r.1.known_peers "A")).map SrcMesh.MeshPeer.in_mesh) = some false := by
  decide

/-- C4: after every heartbeat of the hypha-core mesh, the mesh degree is
at most `d_high` (for any configuration with `d_low ≤ d_high`, which all
constructed configurations satisfy): the overflow prune drives the size
down to `d_high`, the graft loop stops at `d_low`, opportunistic grafts
re-check the cap, and weak-link replacement is size-neutral. -/
theorem core_heartbeat_mesh_le_d_high (pick : List PeerId → List PeerId)
    (now : Nat) (m : Core.TopicMesh) (h : m.config.d_low ≤ m.config.d_high) :
    (Core.heartbeat pick now m).1.mesh_peers.length ≤ m.config.d_high := by
  have e : (Core.heartbeat pick now m).1
      = (Core.weakLink now (Core.oppGraft (Core.graftLoop
          (Core.overflowPrune now
            (Core.scorePrune now (Core.sweep now (Core.decay m))).1.mesh_peers.length
            (Core.scorePrune now (Core.sweep now (Core.decay m))).1 []).1.known_peers.length
          (Core.overflowPrune now
            (Core.scorePrune now (Core.sweep now (Core.decay m))).1.mesh_peers.length
            (Core.scorePrune now (Core.sweep now (Core.decay m))).1 []).1 []).1).1).1 := rfl
  rw [e]
  set m3 := (Core.scorePrune now (Core.sweep now (Core.decay m))).1 with hm3
  have hsub3 : MeshSub m3 := scorePrune_sub now _
  have hcfg3 : m3.config = m.config := rfl
  obtain ⟨h4len, h4cfg⟩ :=
    overflowPrune_le now m3.mesh_peers.length m3 [] hsub3 (Nat.le_add_right _ _)
  set m4 := (Core.overflowPrune now m3.mesh_peers.length m3 []).1 with hm4
  obtain ⟨h5len, h5cfg⟩ := graftLoop_le m4.known_peers.length m4 []
  set m5 := (Core.graftLoop m4.known_peers.length m4 []).1 with hm5
  obtain ⟨h6len, h6cfg⟩ := oppGraft_le m5
  set m6 := (Core.oppGraft m5).1 with hm6
  obtain ⟨h7len, h7cfg⟩ := weakLink_le now m6
  have hc4 : m4.config = m.config := by rw [h4cfg, hcfg3]
  have hc5 : m5.config = m.config := by rw [h5cfg, hc4]
  have h4 : m4.mesh_peers.length ≤ m.config.d_high := by
    rw [← hcfg3]
    exact h4len
  have h5 : m5.mesh_peers.length ≤ m.config.d_high := by
    refine le_trans h5len (max_le h4 ?_)
    rw [hc4]
    exact h
  have h6 : m6.mesh_peers.length ≤ m.config.d_high := by
    refine le_trans h6len (max_le h5 ?_)
    rw [hc5]
  exact le_trans h7len h6

/-- Witness for C4: the default-config mesh with two known peers keeps
its degree at or below `d_high = 12` across a heartbeat. -/
theorem core_heartbeat_mesh_le_d_high_witness :
    (Core.heartbeat pick0 0 c4w).1.mesh_peers.length ≤ c4w.config.d_high :=
  core_heartbeat_mesh_le_d_high pick0 0 c4w (by decide)

/-- C5 counterexample: five `handle_spike(·, 255)` calls drive peer `D`
from conductivity 1.0 to 11.0 > 10.0 in `src/src/mesh.rs` (no clamp on
the spike bump), and a further `record_message` pushes it to 12.0 (no
saturation in this variant), refuting the claimed [0.5, 10] ceiling. -/
theorem spike_exceeds_conductivity_ceiling :
    ((lookupA c5m.known_peers "D").map SrcMesh.MeshPeer.conductivity) = some (some 11)
    ∧ ¬ ((11 : ℚ) ≤ 10)
    ∧ ((lookupA (SrcMesh.record_message c5m "D" "m1" 0).known_peers "D").map
        SrcMesh.MeshPeer.conductivity) = some (some 12) := by
  decide

/-- C5 (amended): conductivity never falls below the 0.5 floor — the
heartbeat decay establishes it unconditionally and `record_message`,
`handle_spike` and `add_peer` preserve it — and the hypha-core
`record_message` saturates conductivity at 10.0; `handle_spike`
(intensity > 200), however, adds exactly 2.0 with no upper clamp, which
is what breaks the claimed 10.0 ceiling. -/
theorem conductivity_floor_and_core_saturation :
    (∀ (m : Core.TopicMesh) (p mid : String) (now : Nat),
      CondLB m → CondLB (Core.record_message m p mid now))
    ∧ (∀ (m : Core.TopicMesh) (p mid : String) (now : Nat),
      CondUB m → CondUB (Core.record_message m p mid now))
    ∧ (∀ (m : Core.TopicMesh) (src : String) (i : Nat),
      CondLB m → CondLB (Core.handle_spike m src i))
    ∧ (∀ (m : Core.TopicMesh) (id : String) (e : ℚ) (now : Nat),
      CondLB m → CondLB (Core.add_peer m id e now))
    ∧ (∀ (pick : List PeerId → List PeerId) (now : Nat) (m : Core.TopicMesh),
      CondLB ((Core.heartbeat pick now m).1))
    ∧ (∀ (m : Core.TopicMesh) (src : String) (i : Nat) (p : Core.MeshPeer),
      200 < i → lookupA m.known_peers src = some p →
      (lookupA (Core.handle_spike m src i).known_peers src).map Core.MeshPeer.conductivity
        = some (p.conductivity + 2)) := by
  refine ⟨?_, ?_, ?_, ?_, ?_, ?_⟩
  · intro m p mid now h kp hkp
    rw [record_message_known] at hkp
    refine @updateAt_forall Core.MeshPeer (fun v => (1/2 : ℚ) ≤ v.conductivity) p _
      m.known_peers ?_ (fun kq hkq => h kq hkq) kp hkp
    intro x hx
    refine le_min ?_ (by norm_num)
    have hg : (0 : ℚ) ≤ (1/10) * max |m.local_pressure - x.pressure| (1/10) :=
      mul_nonneg (by norm_num) (le_trans (by norm_num) (le_max_right _ _))
    linarith
  · intro m p mid now h kp hkp
    rw [record_message_known] at hkp
    refine @updateAt_forall Core.MeshPeer (fun v => v.conductivity ≤ (10 : ℚ)) p _
      m.known_peers ?_ (fun kq hkq => h kq hkq) kp hkp
    intro x _
    exact min_le_right _ _
  · intro m src i h
    unfold Core.handle_spike
    split_ifs with hi
    · intro kp hkp
      have hkp' : kp ∈ updateAt src
          (fun q => { q with conductivity := q.conductivity + 2 }) m.known_peers := hkp
      refine @updateAt_forall Core.MeshPeer (fun v => (1/2 : ℚ) ≤ v.conductivity) src _
        m.known_peers ?_ (fun kq hkq => h kq hkq) kp hkp'
      intro x hx
      linarith
    · exact h
  · intro m id e now h
    unfold Core.add_peer
    split_ifs with hk
    · exact h
    · intro kp hkp
      rcases List.mem_append.mp hkp with h1 | h1
      · exact h kp h1
      · rw [List.mem_singleton.mp h1]
        norm_num [Core.MeshPeer.new]
  · exact condLB_heartbeat
  · intro m src i p hi hp
    simp only [Core.handle_spike, if_pos hi]
    rw [show lookupA (updateAt src
        (fun q => { q with conductivity := q.conductivity + 2 })
        (Core.set_pressure m 10).known_peers) src
      = (lookupA m.known_peers src).map
          (fun q => { q with conductivity := q.conductivity + 2 })
      from lookup_updateAt_self src _ m.known_peers]
    rw [hp]
    rfl

/-- Witness for C5: the floor is preserved by a concrete
`record_message` and holds after a concrete heartbeat. -/
theorem conductivity_floor_and_core_saturation_witness :
    CondLB (Core.record_message c7w "A" "m2" 0)
    ∧ CondLB ((Core.heartbeat pick0 0 c7w).1) := by
  have h := conductivity_floor_and_core_saturation
  exact ⟨h.1 c7w "A" "m2" 0 (by decide), h.2.2.2.2.1 pick0 0 c7w⟩

/-- C6: `update_peer_score` on a previously unseen peer inserts no
record at all in `src/src/mesh.rs` (the claim's upsert fails there),
while the hypha-core variant inserts a fresh record carrying the given
score and `last_seen = now` as claimed. -/
theorem src_update_peer_score_no_upsert_eval :
    c6src.known_peers = []
    ∧ (lookupA c6core.known_peers "peer-a").isSome = true
    ∧ ((lookupA c6core.known_peers "peer-a").map Core.MeshPeer.energy_score) = some (7/10)
    ∧ ((lookupA c6core.known_peers "peer-a").map Core.MeshPeer.last_seen) = some 0 := by
  decide

/-- C7 counterexample: on a state whose `message_cache` already contains
the id, a single call (`N = 1`) increases `duplicate_count` by 1, not by
`N − 1 = 0`, so the claim fails for arbitrary starting states. -/
theorem record_message_cached_id_counterexample :
    c7m.duplicate_count = 0
    ∧ "m1" ∈ c7m.message_cache
    ∧ (Core.record_message c7m "p" "m1" 0).duplicate_count = 1
    ∧ (Core.record_message c7m "p" "m1" 0).duplicate_count ≠ c7m.duplicate_count + (1 - 1) := by
  decide

/-- C8: for phases in `[0, 1)` and weight in `[0, 1]`, `align_pulse`
never increases the wrap-aware distance to the neighbor phase, and the
resulting phase is normalized to `[0, 1)`: the new phase differs from
the target by `(1 − w)·diff` modulo 1, which cannot exceed `|diff|`. -/
theorem align_pulse_contracts_circ_dist (m : Core.TopicMesh) (b w : ℚ)
    (ha0 : 0 ≤ m.pulse_phase) (ha1 : m.pulse_phase < 1)
    (hb0 : 0 ≤ b) (hb1 : b < 1) (hw0 : 0 ≤ w) (hw1 : w ≤ 1) :
    circDist (Core.align_pulse m b w).pulse_phase b ≤ circDist m.pulse_phase b
    ∧ 0 ≤ (Core.align_pulse m b w).pulse_phase
    ∧ (Core.align_pulse m b w).pulse_phase < 1 := by
  set a := m.pulse_phase with ha
  set d := (if 1/2 < b - a then b - a - 1 else if b - a < -(1/2) then b - a + 1 else b - a)
    with hd
  have hph : (Core.align_pulse m b w).pulse_phase
      = (if rustMod1 (a + d * w) < 0 then rustMod1 (a + d * w) + 1
         else rustMod1 (a + d * w)) := by
    rw [hd, ha]
    rfl
  obtain ⟨j, hdj, hdabs⟩ : ∃ j : ℤ, d = (b - a) + j ∧ |d| ≤ 1/2 := by
    rw [hd]
    split_ifs with h1 h2
    · exact ⟨-1, by push_cast; ring, abs_le.mpr ⟨by linarith, by linarith⟩⟩
    · exact ⟨1, by push_cast; ring, abs_le.mpr ⟨by linarith, by linarith⟩⟩
    · exact ⟨0, by push_cast; ring, abs_le.mpr ⟨by linarith, by linarith⟩⟩
  obtain ⟨hph0, hph1, k, hphk⟩ := rustMod1_norm (a + d * w)
  rw [hph]
  refine ⟨?_, hph0, hph1⟩
  have hab : circDist a b = |d| := by
    rw [show |d| = |-d| from (abs_neg d).symm]
    refine circDist_eq_abs a b (-d) j ?_ (by rwa [abs_neg])
    have := hdj
    push_cast at this ⊢
    linarith
  have hwd : |(w - 1) * d| ≤ 1/2 := by
    rw [abs_mul]
    have hw : |w - 1| ≤ 1 := abs_le.mpr ⟨by linarith, by linarith⟩
    calc |w - 1| * |d| ≤ 1 * |d| := mul_le_mul_of_nonneg_right hw (abs_nonneg _)
      _ = |d| := one_mul _
      _ ≤ 1/2 := hdabs
  have hphb : circDist
      (if rustMod1 (a + d * w) < 0 then rustMod1 (a + d * w) + 1
       else rustMod1 (a + d * w)) b = |(w - 1) * d| := by
    refine circDist_eq_abs _ b ((w - 1) * d) (j + k) ?_ hwd
    rw [hphk]
    have := hdj
    push_cast at this ⊢
    linarith [this]
  rw [hphb, hab, abs_mul]
  have hw : |w - 1| ≤ 1 := abs_le.mpr ⟨by linarith, by linarith⟩
  calc |w - 1| * |d| ≤ 1 * |d| := mul_le_mul_of_nonneg_right hw (abs_nonneg _)
    _ = |d| := one_mul _

/-- Witness for C8: aligning phase 0.1 toward 0.9 with weight 0.5 does
not increase the circular distance and stays normalized. -/
theorem align_pulse_contracts_circ_dist_witness :
    circDist (Core.align_pulse c8m (9/10) (1/2)).pulse_phase (9/10)
      ≤ circDist c8m.pulse_phase (9/10)
    ∧ 0 ≤ (Core.align_pulse c8m (9/10) (1/2)).pulse_phase
    ∧ (Core.align_pulse c8m (9/10) (1/2)).pulse_phase < 1 :=
  align_pulse_contracts_circ_dist c8m (9/10) (1/2)
    (show (0 : ℚ) ≤ 1/10 by norm_num)
    (show (1/10 : ℚ) < 1 by norm_num)
    (by norm_num) (by norm_num) (by norm_num) (by norm_num)

/-- C7 (amended): for a known peer `p` and an id `m` not already cached,
`N ≥ 1` calls to `record_message(p, m)` add `N − 1` to
`duplicate_count`, leave the cache holding `m` exactly once, and add `N`
to the sender's `message_count`. -/
theorem record_message_dedup_spec (m : Core.TopicMesh) (p mid : String)
    (now n : Nat) (hp : (lookupA m.known_peers p).isSome = true)
    (hm : mid ∉ m.message_cache) (hn : 1 ≤ n) :
    (recordN p mid now n m).duplicate_count = m.duplicate_count + (n - 1)
    ∧ (recordN p mid now n m).message_cache.count mid = 1
    ∧ (lookupA (recordN p mid now n m).known_peers p).map Core.MeshPeer.message_count
        = (lookupA m.known_peers p).map (fun r => r.message_count + n) := by
  obtain ⟨k, rfl⟩ : ∃ k, n = k + 1 := ⟨n - 1, by omega⟩
  have hfresh := record_message_fresh m p mid now hm
  have hm1 : mid ∈ (Core.record_message m p mid now).message_cache := by
    rw [hfresh.2]
    exact List.mem_append_right _ (List.mem_singleton_self mid)
  obtain ⟨hc1, hc2, hc3⟩ := recordN_cached p mid now k (Core.record_message m p mid now) hm1
  refine ⟨?_, ?_, ?_⟩
  · show (recordN p mid now k (Core.record_message m p mid now)).duplicate_count
      = m.duplicate_count + (k + 1 - 1)
    rw [hc1, hfresh.1]
    omega
  · show (recordN p mid now k (Core.record_message m p mid now)).message_cache.count mid = 1
    rw [hc2, hfresh.2, List.count_append, List.count_eq_zero.mpr hm]
    simp
  · show (lookupA (recordN p mid now k (Core.record_message m p mid now)).known_peers p).map
        Core.MeshPeer.message_count
      = (lookupA m.known_peers p).map (fun r => r.message_count + (k + 1))
    rw [hc3, record_message_lookup]
    cases hl : lookupA m.known_peers p with
    | none =>
      rw [hl] at hp
      simp at hp
    | some r =>
      simp only [Option.map_some']
      congr 1
      omega

/-- Witness for C7: three calls on a fresh cache with a known peer give
`duplicate_count = 2`, the id cached once, and `message_count = 3`. -/
theorem record_message_dedup_spec_witness :
    (recordN "A" "m1" 0 3 c7w).duplicate_count = 2
    ∧ (recordN "A" "m1" 0 3 c7w).message_cache.count "m1" = 1
    ∧ (lookupA (recordN "A" "m1" 0 3 c7w).known_peers "A").map Core.MeshPeer.message_count
        = some 3 := by
  have h := record_message_dedup_spec c7w "A" "m1" 0 3 (by decide) (by decide) (by decide)
  refine ⟨?_, h.2.1, ?_⟩
  · rw [h.1]
    decide
  · rw [h.2.2]
    decide

/-- C9: `evaluate_task` declines under a known quorum of three bids when
energy is below 0.8, declines below the 0.2 energy floor, bids
`{task.id, self, energy, 50}` when none of that applies and the
capability matches, and declines on a capability mismatch. -/
theorem evaluate_task_spec (capabilities : List Agent.Capability) (peer_id : String)
    (score : ℚ) (task : Agent.Task) (known_bids : Nat) :
    (3 ≤ known_bids → score < 8/10 →
      Node.evaluate_task capabilities peer_id score task known_bids = none)
    ∧ (score < 2/10 →
      Node.evaluate_task capabilities peer_id score task known_bids = none)
    ∧ (¬ (3 ≤ known_bids ∧ score < 8/10) → ¬ (score < 2/10) →
      task.required_capability ∈ capabilities →
      Node.evaluate_task capabilities peer_id score task known_bids
        = some { task_id := task.id, bidder_id := peer_id,
                 energy_score := score, cost_mah := 50 })
    ∧ (task.required_capability ∉ capabilities →
      Node.evaluate_task capabilities peer_id score task known_bids = none) := by
  unfold Node.evaluate_task
  refine ⟨?_, ?_, ?_, ?_⟩
  · intro hk hs
    rw [if_pos ⟨hk, hs⟩]
  · intro hs
    by_cases h1 : 3 ≤ known_bids ∧ score < 8/10
    · rw [if_pos h1]
    · rw [if_neg h1, if_pos hs]
  · intro hq hs hmem
    rw [if_neg hq, if_neg hs, if_pos hmem]
  · intro hmem
    by_cases h1 : 3 ≤ known_bids ∧ score < 8/10
    · rw [if_pos h1]
    · by_cases h2 : score < 2/10
      · rw [if_neg h1, if_pos h2]
      · rw [if_neg h1, if_neg h2, if_neg hmem]

/-- Witness for C9: a `Compute(100)` node at energy 0.3 with five known
bids stays silent, and the same node at energy 0.9 with no known bids
submits the claimed bid. -/
theorem evaluate_task_spec_witness :
    Node.evaluate_task [Agent.Capability.compute 100] "n" (3/10) c9task 5 = none
    ∧ Node.evaluate_task [Agent.Capability.compute 100] "n" (9/10) c9task 0
      = some { task_id := "t1", bidder_id := "n", energy_score := 9/10, cost_mah := 50 } := by
  constructor
  · exact (evaluate_task_spec [Agent.Capability.compute 100] "n" (3/10) c9task 5).1
      (by norm_num) (by norm_num)
  · exact (evaluate_task_spec [Agent.Capability.compute 100] "n" (9/10) c9task 0).2.2.1
      (by norm_num) (by norm_num) (by decide)

/-- C10: `consume` returns `false` exactly when the battery is already
depleted at entry and then leaves the state unchanged; on success the
remaining capacity is `max(old − cost, 0)` (hence never negative) and
the voltage is recomputed as `3.3 + 0.9 · (mah_remaining / 2500)`. -/
theorem consume_spec (b : Metabolism.BatteryMetabolism) (cost : ℚ) :
    ((Metabolism.consume b cost).1 = false ↔ b.mah_remaining ≤ 0)
    ∧ (b.mah_remaining ≤ 0 → (Metabolism.consume b cost).2 = b)
    ∧ ((Metabolism.consume b cost).1 = true →
        (Metabolism.consume b cost).2.mah_remaining = max (b.mah_remaining - cost) 0
        ∧ 0 ≤ (Metabolism.consume b cost).2.mah_remaining
        ∧ (Metabolism.consume b cost).2.voltage
            = 33/10 + (9/10) * ((Metabolism.consume b cost).2.mah_remaining / 2500)) := by
  unfold Metabolism.consume
  split_ifs with h
  · refine ⟨by simp [h], fun _ => rfl, fun hc => by simp at hc⟩
  · refine ⟨by simp [h], fun h' => absurd h' h, fun _ => ⟨rfl, le_max_right _ _, by ring⟩⟩

/-- Witness for C10: consuming 30 mAh from the default battery succeeds
and leaves `max(2500 − 30, 0)` mAh at a nonnegative level. -/
theorem consume_spec_witness :
    (Metabolism.consume Metabolism.BatteryMetabolism.default 30).2.mah_remaining
      = max ((2500 : ℚ) - 30) 0
    ∧ 0 ≤ (Metabolism.consume Metabolism.BatteryMetabolism.default 30).2.mah_remaining := by
  have h := consume_spec Metabolism.BatteryMetabolism.default 30
  exact ⟨(h.2.2 (by decide)).1, (h.2.2 (by decide)).2.1⟩

end ClaimTheorems

